import Mathlib

/-!
Verification development for the `bit-sync-esm` delta-synchronization engine
(`src/index.js`).  The JavaScript source is shallowly embedded:

* byte buffers (`ArrayBuffer` viewed through `Uint8Array`) are `List Nat`
  whose in-range values are `< 256`;
* checksum documents, which the source reads and writes exclusively through
  `Uint32Array` views, are `List Nat` of 32-bit words (values `< 2^32`);
* patch documents, which mix word-aligned headers with raw literal bytes,
  are `List Nat` of bytes;
* JavaScript number arithmetic appearing in the checksums is embedded over
  `Int`, with the 32-bit coercions (`| `, `<<`, `>>> 0`, `%`) made explicit
  (`jsOr`, `jsShl`, `toUint32Int`, `Int.tmod`);
* the MD5 digest comes from the external `@noble/hashes` package and is not
  part of this repository, so every operation is parameterised by an
  abstract digest `md5fn : List Nat → Digest` returning the four 32-bit
  lanes the engine compares (the collaborator contract of spec section 4.1);
* the `while` loop of `createPatchDocument` advances by `blockSize` on a
  match, so it terminates only when the block size is positive; it is
  embedded with explicit fuel and returns `none` when the fuel runs out,
  which never happens for the block sizes `validateBlockSize` admits;
* progress sinks: each operation returns, next to its result, the list of
  progress events it delivered (the list a caller-attached `onProgress`
  sink would observe); cancellation tokens (`signal.aborted` sampled at the
  loop checkpoints) are embedded as a predicate on the loop counter.
  `onBlockApplied` traces and the informational `stats` object are not
  modelled: no claim concerns them.
-/

set_option maxRecDepth 100000

deriving instance DecidableEq for Except

namespace BitSync

/-- Hash table size constant from the source (`2^16`). -/
def HASH_TABLE_SIZE : Nat := 65536

/-- Maximum block size constant from the source (1 MB). -/
def MAX_BLOCK_SIZE : Nat := 1048576

/-- JavaScript `ToUint32`: reduce an integer into `[0, 2^32)`. -/
def toUint32Int (n : Int) : Nat := (n % (4294967296 : Int)).toNat

/-- JavaScript `ToInt32`: reduce an integer into `[-2^31, 2^31)`. -/
def toInt32 (n : Int) : Int :=
  let m := n % (4294967296 : Int)
  if m < 2147483648 then m else m - 4294967296

/-- JavaScript `x << k` on numbers: both operands pass through `ToInt32`. -/
def jsShl (x : Int) (k : Nat) : Int := toInt32 (toInt32 x * (2 ^ k : Nat))

/-- JavaScript `x | y`: bitwise or of the `ToInt32` images, as an `Int32`. -/
def jsOr (x y : Int) : Int := toInt32 (Nat.lor (toUint32Int x) (toUint32Int y))

/-- Ceiling division, the value of `Math.ceil(a / b)` for natural `a`, positive `b`. -/
def ceilDiv (a b : Nat) : Nat := (a + b - 1) / b

/-- Result record of the weak-checksum functions (`{a, b, checksum}` in the
source).  The fields are `Int` because `rollingChecksum` works with raw
JavaScript `%`, whose result takes the sign of the dividend. -/
structure AdlerInfo where
  a : Int
  b : Int
  checksum : Int
deriving Repr, DecidableEq

/-- Embeds `adler32(offset, end, data)` (src/index.js:63-77).  The loop runs
`i` from `offset` to `clampedEnd = min(end, data.length - 1)` inclusive; the
index list below is exactly that range (empty when `offset` exceeds the
clamped end, in particular on empty data where `clampedEnd` is `-1`). -/
def adler32Indices (offset stop : Nat) (data : List Nat) : List Nat :=
  let clampedEnd : Int := min (stop : Int) ((data.length : Int) - 1)
  (List.range (clampedEnd + 1 - (offset : Int)).toNat).map (offset + ·)

/-- Fresh weak checksum `adler32` (src/index.js:63-77): running byte sum `a`
and running sum-of-sums `b`, then `% 65536` on both and the combined
`((b << 16) | a) >>> 0`. -/
def adler32 (offset stop : Nat) (data : List Nat) : AdlerInfo :=
  let p := (adler32Indices offset stop data).foldl
    (fun (p : Nat × Nat) i => (p.1 + data.getD i 0, p.2 + p.1 + data.getD i 0)) (0, 0)
  let a : Int := (p.1 % HASH_TABLE_SIZE : Nat)
  let b : Int := (p.2 % HASH_TABLE_SIZE : Nat)
  { a := a, b := b, checksum := (toUint32Int (jsOr (jsShl b 16) a) : Nat) }

/-- Rolling update `rollingChecksum` (src/index.js:79-84).  Uses raw
JavaScript `%` (`Int.tmod`), and — unlike `adler32` — the combined value
`(b << 16) | a` has no `>>> 0`.  The source reads `data[offset - 1]` and
`data[end]`; every call site keeps both in range, so `getD _ 0` is safe. -/
def rollingChecksum (adlerInfo : AdlerInfo) (offset stop : Nat) (data : List Nat) : AdlerInfo :=
  let firstByte : Int := data.getD (offset - 1) 0
  let a := Int.tmod (adlerInfo.a - firstByte + (data.getD stop 0 : Int)) (HASH_TABLE_SIZE : Int)
  let b := Int.tmod
    (adlerInfo.b - ((stop : Int) - (offset : Int) + 1) * firstByte + a) (HASH_TABLE_SIZE : Int)
  { a := a, b := b, checksum := jsOr (jsShl b 16) a }

/-- Bucket hash `hash16` (src/index.js:61): `num % 65536` with JavaScript
`%`, hence negative for negative input. -/
def hash16 (num : Int) : Int := Int.tmod num (HASH_TABLE_SIZE : Int)

/-- Embeds `readUint32LE` (src/index.js:86-93): four byte loads combined
with `|` and `<<` and a final `>>> 0`.  Out-of-range loads give `undefined`,
which the bitwise operators convert to `0`, matching `getD _ 0`. -/
def readUint32LE (v : List Nat) (offset : Nat) : Nat :=
  toUint32Int (jsOr (jsOr (jsOr (v.getD offset 0 : Int)
    (jsShl (v.getD (offset + 1) 0) 8))
    (jsShl (v.getD (offset + 2) 0) 16))
    (jsShl (v.getD (offset + 3) 0) 24))

/-- Little-endian 32-bit load of a `Uint32Array` element from a byte buffer
(the platform-endianness view reads; the engine's wire format is
little-endian).  Faithful for buffers whose entries are bytes (`< 256`). -/
def readWordLE (v : List Nat) (offset : Nat) : Nat :=
  v.getD offset 0 + 256 * v.getD (offset + 1) 0 +
    65536 * v.getD (offset + 2) 0 + 16777216 * v.getD (offset + 3) 0

/-- Little-endian serialisation of one 32-bit word, as `appendUint32`
(src/index.js:42-53, `DataView.setUint32(…, true)`) lays it out.  For
`n ≥ 2^32` this agrees with JavaScript's implicit `ToUint32`. -/
def uint32LE (n : Nat) : List Nat :=
  [n % 256, n / 256 % 256, n / 65536 % 256, n / 16777216 % 256]

/-- Embeds `optimizeBlockSize` (src/index.js:98-104). -/
def optimizeBlockSize (fileSize : Nat) : Nat :=
  if fileSize < 50000 then 512
  else if fileSize < 500000 then 2048
  else if fileSize < 5000000 then 4096
  else if fileSize < 50000000 then 8192
  else 16384

/-- Embeds `validateBlockSize` (src/index.js:109-127): errors outside
`[1, 2^20]`, silently clamps to `max 1 ⌊dataSize/2⌋` when the block size
exceeds the data size (the console warnings are diagnostics, not modelled).
`Number.isInteger` always holds for `Nat` inputs. -/
def validateBlockSize (blockSize dataSize : Nat) : Except String Nat :=
  if blockSize < 1 then .error "Block size must be an integer >= 1"
  else if blockSize > MAX_BLOCK_SIZE then .error "Block size must be <= 1048576"
  else if blockSize > dataSize then .ok (max 1 (dataSize / 2))
  else .ok blockSize

/-- The four 32-bit lanes of the 128-bit strong digest, as the engine reads
them from the collaborator's output (`new Uint32Array(hash.buffer, …, 4)`,
src/index.js:173).  The engine only ever compares lanes for equality. -/
structure Digest where
  h0 : Nat
  h1 : Nat
  h2 : Nat
  h3 : Nat
deriving Repr, DecidableEq

/-- The digest lanes in document order. -/
def Digest.words (d : Digest) : List Nat := [d.h0, d.h1, d.h2, d.h3]

/-- Progress event of `createChecksumDocument` (src/index.js:181-186). -/
structure ChkEvent where
  phase : String
  blocksProcessed : Nat
  totalBlocks : Nat
  percent : ℚ
deriving Repr, DecidableEq

/-- Bytes of block `i` of a buffer split at `blockSize`: the
`min(blockSize, |d| - i·blockSize)` bytes from offset `i·blockSize`
(src/index.js:164-171). -/
def blockChunk (blockSize : Nat) (data : List Nat) (i : Nat) : List Nat :=
  (data.drop (i * blockSize)).take (min blockSize (data.length - i * blockSize))

/-- Weak-checksum state of block `i`, exactly as both the fingerprint
builder (src/index.js:168) and the block-aligned probes of the patch
builder compute it. -/
def blockAdler (blockSize : Nat) (data : List Nat) (i : Nat) : AdlerInfo :=
  adler32 (i * blockSize) (i * blockSize + min blockSize (data.length - i * blockSize) - 1) data

/-- The five document words of block `i`: weak checksum (stored through a
`Uint32Array`) followed by the four digest lanes (src/index.js:168-178). -/
def blockWords (md5fn : List Nat → Digest) (blockSize : Nat) (data : List Nat) (i : Nat) :
    List Nat :=
  toUint32Int (blockAdler blockSize data i).checksum :: (md5fn (blockChunk blockSize data i)).words

/-- Block-loop body of `createChecksumDocument` (src/index.js:159-188),
processing the listed block indices in order.  For each index: cancellation
check, weak checksum of the block (stored through a `Uint32Array`, hence
`toUint32Int`), strong digest lanes, and a progress event after every 100
blocks and at the final block.  Events delivered before a cancellation are
kept alongside the error, as the sink has already observed them. -/
def checksumLoop (md5fn : List Nat → Digest) (blockSize : Nat) (data : List Nat)
    (numBlocks : Nat) (signal : Nat → Bool) :
    List Nat → Except String (List Nat) × List ChkEvent
  | [] => (.ok [], [])
  | i :: rest =>
    if signal i then (.error "Operation cancelled", [])
    else
      let ws := blockWords md5fn blockSize data i
      let ev : List ChkEvent :=
        if i % 100 = 0 ∨ i = numBlocks - 1 then
          [⟨"checksum", i + 1, numBlocks, ((i : ℚ) + 1) / (numBlocks : ℚ) * 100⟩]
        else []
      match checksumLoop md5fn blockSize data numBlocks signal rest with
      | (.error e, evs) => (.error e, ev ++ evs)
      | (.ok rest, evs) => (.ok (ws ++ rest), ev ++ evs)

/-- Embeds `createChecksumDocument` (src/index.js:139-191): validates the
block size, then emits the document `[blockSize, numBlocks]` followed by
five words (`weak`, four digest lanes) per block. -/
def createChecksumDocument (md5fn : List Nat → Digest) (blockSize : Nat)
    (data : List Nat) (signal : Nat → Bool) :
    Except String (List Nat) × List ChkEvent :=
  match validateBlockSize blockSize data.length with
  | .error e => (.error e, [])
  | .ok bs =>
    let numBlocks := ceilDiv data.length bs
    match checksumLoop md5fn bs data numBlocks signal (List.range numBlocks) with
    | (.error e, evs) => (.error e, evs)
    | (.ok body, evs) => (.ok ([bs, numBlocks] ++ body), evs)

/-- One row of the match index: `[blockIndex, adler32sum, md5sum]` in the
source (src/index.js:204-208). -/
structure ChecksumEntry where
  blockIndex : Nat
  weak : Nat
  strong : List Nat
deriving Repr, DecidableEq

/-- The hash table of `parseChecksumDocument`: a sparse array keyed by the
16-bit bucket, embedded as an association list (bucket, row).  Only direct
bucket lookup is ever performed, so the association order is irrelevant;
rows keep insertion order exactly as `push` does. -/
def htInsert (t : List (Int × List ChecksumEntry)) (e : ChecksumEntry) :
    List (Int × List ChecksumEntry) :=
  let h := hash16 (e.weak : Int)
  if t.any (fun p => p.1 = h) then
    t.map (fun p => if p.1 = h then (p.1, p.2 ++ [e]) else p)
  else t ++ [(h, [e])]

/-- Bucket lookup: the row stored under `h`, or the empty row when the
bucket was never created (`!hashTable[hash]` in the source). -/
def htLookup (t : List (Int × List ChecksumEntry)) (h : Int) : List ChecksumEntry :=
  ((t.find? (fun p => p.1 = h)).map (fun p => p.2)).getD []

/-- Reads the per-block groups of five words, numbering blocks from 1
(src/index.js:203-214).  A trailing group of fewer than five words (possible
only for corrupt documents) would carry `undefined` fields in JavaScript:
its bucket `NaN` can never equal a lookup key, so the unreachable row is
omitted here, while `parseIterations` still counts the iteration. -/
def parseEntries (blockIndex : Nat) : List Nat → List ChecksumEntry
  | w :: s0 :: s1 :: s2 :: s3 :: rest =>
    ⟨blockIndex, w, [s0, s1, s2, s3]⟩ :: parseEntries (blockIndex + 1) rest
  | _ => []

/-- Number of iterations of the parse loop `for (i = 2; i < len; i += 5)`:
one per started group of five words. -/
def parseIterations (body : List Nat) : Nat := ceilDiv body.length 5

/-- Embeds `parseChecksumDocument` (src/index.js:196-223): builds the bucket
table and rejects the document when the header block count disagrees with
the number of groups walked. -/
def parseChecksumDocument (words : List Nat) :
    Except String (List (Int × List ChecksumEntry)) :=
  match words[1]? with
  | none => .error "Checksum document mismatch"
  | some numBlocks =>
    let body := words.drop 2
    if numBlocks = parseIterations body then
      .ok ((parseEntries 1 body).foldl htInsert [])
    else .error "Checksum document mismatch"

/-- Embeds `checkMatch` (src/index.js:228-255): bucket lookup by
`hash16(checksum)`, then the first row entry whose weak sum equals the
window's checksum and whose digest lanes all match.  The source returns
`false` on a miss and the (always positive) block index on a hit. -/
def checkMatch (md5fn : List Nat → Digest) (adlerInfo : AdlerInfo)
    (table : List (Int × List ChecksumEntry)) (block : List Nat) : Option Nat :=
  (htLookup table (hash16 adlerInfo.checksum)).findSome? fun e =>
    if (e.weak : Int) = adlerInfo.checksum then
      if (md5fn block).words = e.strong then some e.blockIndex else none
    else none

/-- Progress event of `createPatchDocument` (src/index.js:345-353 and
374-382).  The nested `stats` object duplicates these counters and is not
modelled. -/
structure PatchEvent where
  phase : String
  bytesProcessed : Nat
  totalBytes : Nat
  matchesFound : Nat
  patchesCreated : Nat
  percent : ℚ
deriving Repr, DecidableEq

/-- Loop state of `createPatchDocument` (src/index.js:282-298): the two
growing byte streams, the counters, the pending literal, the optional
rolling state and the progress bookkeeping. -/
structure PatchState where
  i : Nat
  adlerInfo : Option AdlerInfo
  matchedBlocks : List Nat
  patches : List Nat
  matchCount : Nat
  patchCount : Nat
  lastMatchIndex : Nat
  currentPatch : List Nat
  lastProgressUpdate : Nat
  events : List PatchEvent
deriving Repr

/-- Initial state of the patch-builder loop. -/
def initPatchState : PatchState :=
  { i := 0, adlerInfo := none, matchedBlocks := [], patches := [], matchCount := 0,
    patchCount := 0, lastMatchIndex := 0, currentPatch := [], lastProgressUpdate := 0,
    events := [] }

/-- Post-loop serialisation of `createPatchDocument` (src/index.js:358-385):
flush the pending literal as a final patch record, lay out
`[blockSize, patchCount, matchCount]`, the match words and the patch
records, and emit the unconditional 100% event. -/
def patchFinish (blockSize : Nat) (data : List Nat) (st : PatchState) :
    List Nat × List PatchEvent :=
  let flush := decide (st.currentPatch ≠ [])
  let patches :=
    if flush then
      st.patches ++ uint32LE st.lastMatchIndex ++ uint32LE st.currentPatch.length ++
        st.currentPatch
    else st.patches
  let patchCount := if flush then st.patchCount + 1 else st.patchCount
  (uint32LE blockSize ++ uint32LE patchCount ++ uint32LE st.matchCount ++
     (st.matchedBlocks.map uint32LE).flatten ++ patches,
   st.events ++
     [⟨"patch", data.length, data.length, st.matchCount, patchCount, 100⟩])

/-- Weak checksum the hot loop computes for the current window
(src/index.js:307-311): rolled when a previous window state exists and the
chunk is full-size, fresh otherwise. -/
def probeAdler (blockSize : Nat) (data : List Nat) (st : PatchState) : AdlerInfo :=
  let chunkSize := min blockSize (data.length - st.i)
  match st.adlerInfo with
  | some prev =>
    if chunkSize = blockSize then rollingChecksum prev st.i (st.i + chunkSize - 1) data
    else adler32 st.i (st.i + chunkSize - 1) data
  | none => adler32 st.i (st.i + chunkSize - 1) data

/-- The match branch of the hot loop (src/index.js:319-336): flush the
pending literal as a patch record, append the matched block index, jump by
a whole block, drop the rolling state. -/
def patchHit (blockSize : Nat) (st : PatchState) (mb : Nat) : PatchState :=
  let flush := decide (st.currentPatch ≠ [])
  { st with
    matchedBlocks := st.matchedBlocks ++ [mb]
    matchCount := st.matchCount + 1
    patches :=
      if flush then
        st.patches ++ uint32LE st.lastMatchIndex ++
          uint32LE st.currentPatch.length ++ st.currentPatch
      else st.patches
    patchCount := if flush then st.patchCount + 1 else st.patchCount
    currentPatch := if flush then [] else st.currentPatch
    lastMatchIndex := mb
    i := st.i + blockSize
    adlerInfo := none }

/-- The literal branch of the hot loop (src/index.js:337-340): append one
source byte to the pending literal, advance one byte, keep the rolling
state. -/
def patchMiss (data : List Nat) (st : PatchState) (ai : AdlerInfo) : PatchState :=
  { st with
    currentPatch := st.currentPatch ++ [data.getD st.i 0]
    i := st.i + 1
    adlerInfo := some ai }

/-- The throttled progress emission at the end of a hot-loop iteration
(src/index.js:344-355): an event is delivered when more than `10·blockSize`
bytes have been consumed since the last one. -/
def patchEmit (blockSize : Nat) (data : List Nat) (stOld stNew : PatchState) : PatchState :=
  if stNew.i - stOld.lastProgressUpdate > blockSize * 10 then
    { stNew with
      events := stNew.events ++
        [⟨"patch", stNew.i, data.length, stNew.matchCount, stNew.patchCount,
          (stNew.i : ℚ) / (data.length : ℚ) * 100⟩]
      lastProgressUpdate := stNew.i }
  else stNew

/-- One iteration of the hot loop of `createPatchDocument`
(src/index.js:300-356), assuming `st.i < data.length`: weak checksum, match
probe, hit or miss branch, then the throttled progress emission. -/
def patchStep (md5fn : List Nat → Digest) (blockSize : Nat) (data : List Nat)
    (table : List (Int × List ChecksumEntry)) (st : PatchState) : PatchState :=
  let ai := probeAdler blockSize data st
  let st' :=
    match checkMatch md5fn ai table
        ((data.drop st.i).take (min blockSize (data.length - st.i))) with
    | some mb => patchHit blockSize st mb
    | none => patchMiss data st ai
  patchEmit blockSize data st st'

/-- The `while (i < dataView.length)` loop of `createPatchDocument`
(src/index.js:300-356) with explicit fuel; `none` marks fuel exhaustion,
which cannot occur for positive block sizes and fuel `> data.length`. -/
def patchLoop (md5fn : List Nat → Digest) (blockSize : Nat) (data : List Nat)
    (table : List (Int × List ChecksumEntry)) (signal : Nat → Bool) :
    Nat → PatchState → Option (Except String (List Nat) × List PatchEvent)
  | 0, _ => none
  | fuel + 1, st =>
    if st.i < data.length then
      if signal st.i then some (.error "Operation cancelled", st.events)
      else patchLoop md5fn blockSize data table signal fuel
        (patchStep md5fn blockSize data table st)
    else
      let r := patchFinish blockSize data st
      some (.ok r.1, r.2)

/-- Embeds `createPatchDocument` (src/index.js:267-386): read the block size
from the checksum document header, build the match index, run the hot loop.
The fuel `data.length + 1` suffices whenever the block size is positive. -/
def createPatchDocument (md5fn : List Nat → Digest) (checksumWords : List Nat)
    (data : List Nat) (signal : Nat → Bool) :
    Option (Except String (List Nat) × List PatchEvent) :=
  let blockSize := checksumWords.getD 0 0
  match parseChecksumDocument checksumWords with
  | .error e => some (.error e, [])
  | .ok table => patchLoop md5fn blockSize data table signal (data.length + 1) initPatchState

/-- Progress event of `applyPatch` (src/index.js:481-487 and 509-515). -/
structure ApplyEvent where
  phase : String
  patchesApplied : Nat
  totalPatches : Nat
  blocksApplied : Nat
  percent : ℚ
deriving Repr, DecidableEq

/-- Header reader: block size word of a patch document. -/
def patchBlockSize (pd : List Nat) : Nat := readWordLE pd 0

/-- Header reader: patch-record count word of a patch document. -/
def patchPatchCount (pd : List Nat) : Nat := readWordLE pd 4

/-- Header reader: match count word of a patch document. -/
def patchMatchCount (pd : List Nat) : Nat := readWordLE pd 8

/-- The match-index words of a patch document
(`new Uint32Array(patchDocument, 12, matchCount)`). -/
def patchMatches (pd : List Nat) : List Nat :=
  (List.range (patchMatchCount pd)).map fun k => readWordLE pd (12 + 4 * k)

/-- The destination bytes replayed for matched block `j`
(src/index.js:452-454): `min(blockSize, |d| - (j-1)·blockSize)` bytes from
offset `(j-1)·blockSize`. -/
def blockBytes (data : List Nat) (blockSize j : Nat) : List Nat :=
  (data.drop ((j - 1) * blockSize)).take (min blockSize (data.length - (j - 1) * blockSize))

/-- Embeds `new Uint8Array(data, start, chunkSize)` for matched block `j`
(src/index.js:452-454 and 493-495): `start = (j-1)·blockSize` and
`chunkSize = min(blockSize, |d| - start)` are computed in ordinary
JavaScript numbers, and the typed-array constructor raises `RangeError`
when either is negative — the only bounds check `applyPatch` has. -/
def copyBlock (data : List Nat) (blockSize j : Nat) : Except String (List Nat) :=
  let start : Int := ((j : Int) - 1) * (blockSize : Int)
  let chunkSize : Int := min (blockSize : Int) ((data.length : Int) - start)
  if start < 0 ∨ chunkSize < 0 then .error "RangeError"
  else .ok ((data.drop start.toNat).take chunkSize.toNat)

/-- The inner `while` of the record loop (src/index.js:448-466): replay
pending matched blocks whose index does not exceed the record's anchor.
Returns the appended bytes, the remaining match list and the number of
blocks applied. -/
def drainMatches (data : List Nat) (blockSize anchor : Nat) :
    List Nat → Except String (List Nat × List Nat × Nat)
  | [] => .ok ([], [], 0)
  | j :: rest =>
    if j > anchor then .ok ([], j :: rest, 0)
    else
      match copyBlock data blockSize j with
      | .error e => .error e
      | .ok bs =>
        match drainMatches data blockSize anchor rest with
        | .error e => .error e
        | .ok (acc, rem, c) => .ok (bs ++ acc, rem, c + 1)

/-- The trailing `while` of `applyPatch` (src/index.js:491-506): replay
every remaining matched block. -/
def drainAll (data : List Nat) (blockSize : Nat) :
    List Nat → Except String (List Nat × Nat)
  | [] => .ok ([], 0)
  | j :: rest =>
    match copyBlock data blockSize j with
    | .error e => .error e
    | .ok bs =>
      match drainAll data blockSize rest with
      | .error e => .error e
      | .ok (acc, c) => .ok (bs ++ acc, c + 1)

/-- State of the record loop of `applyPatch` (src/index.js:435-437). -/
structure ApplyState where
  patchOffset : Nat
  recIndex : Nat
  mlist : List Nat
  blocksApplied : Nat
  result : List Nat
  events : List ApplyEvent
deriving Repr

/-- The record loop of `applyPatch` (src/index.js:439-489), one iteration
per patch record: cancellation check, read anchor and literal length, drain
matched blocks up to the anchor, append the literal (`subarray` clamps a
length that overruns the document — no error), advance, emit the per-record
progress event.  An error keeps the events already delivered. -/
def applyRecords (data pd : List Nat) (blockSize totalPatches : Nat)
    (signal : Nat → Bool) : Nat → ApplyState → Option String × ApplyState
  | 0, st => (none, st)
  | n + 1, st =>
    if signal st.recIndex then (some "Operation cancelled", st)
    else
      let anchor := readUint32LE pd st.patchOffset
      let patchSize := readUint32LE pd (st.patchOffset + 4)
      let po := st.patchOffset + 8
      match drainMatches data blockSize anchor st.mlist with
      | .error e => (some e, st)
      | .ok (bs, rem, c) =>
        applyRecords data pd blockSize totalPatches signal n
          { patchOffset := po + patchSize
            recIndex := st.recIndex + 1
            mlist := rem
            blocksApplied := st.blocksApplied + c
            result := st.result ++ bs ++ ((pd.drop po).take patchSize)
            events := st.events ++
              [⟨"apply", st.recIndex + 1, totalPatches, st.blocksApplied + c,
                ((st.recIndex : ℚ) + 1) / (totalPatches : ℚ) * 100⟩] }

/-- The fast-path guard of `applyPatch` (src/index.js:415-429): no patch
records, match count equal to `Math.ceil(|d| / blockSize)` (never satisfied
for block size 0, where that quotient is `Infinity` or `NaN`), and strictly
sequential match indices `1, 2, …, M`. -/
def fastPathOk (pd data : List Nat) : Bool :=
  patchPatchCount pd = 0 ∧ 0 < patchBlockSize pd ∧
    patchMatchCount pd = ceilDiv data.length (patchBlockSize pd) ∧
    patchMatches pd = (List.range (patchMatchCount pd)).map (· + 1)

/-- Embeds `applyPatch` (src/index.js:399-519).  The header view
`new Uint32Array(patchDocument, 0, 3)` needs 12 bytes and the match view
needs `12 + 4·matchCount` bytes; either shortfall raises `RangeError` (the
match view is built in both the fast and the general path, so the bound
check is hoisted).  Then: fast path, or record loop followed by the trailing
drain and the unconditional 100% event. -/
def applyPatch (pd data : List Nat) (signal : Nat → Bool) :
    Except String (List Nat) × List ApplyEvent :=
  if pd.length < 12 then (.error "RangeError", [])
  else if pd.length < 12 + 4 * patchMatchCount pd then (.error "RangeError", [])
  else if fastPathOk pd data then (.ok data, [])
  else
    match applyRecords data pd (patchBlockSize pd) (patchPatchCount pd) signal
        (patchPatchCount pd)
        { patchOffset := 12 + 4 * patchMatchCount pd, recIndex := 0,
          mlist := patchMatches pd, blocksApplied := 0, result := [], events := [] } with
    | (some e, st) => (.error e, st.events)
    | (none, st) =>
      match drainAll data (patchBlockSize pd) st.mlist with
      | .error e => (.error e, st.events)
      | .ok (bs, _) =>
        (.ok (st.result ++ bs),
         st.events ++ [⟨"apply", patchPatchCount pd, patchPatchCount pd, patchMatchCount pd, 100⟩])

/-- First-occurrence deduplication step of `mergeChecksumDocuments`
(src/index.js:539-551): the JavaScript `Map` keyed by the string
`"w-s0-s1-s2-s3"` keeps the first value per key in insertion order; the
components are decimal `uint32` strings joined by `-`, so key equality is
exactly equality of the five-word tuples. -/
def dedupInsert (acc : List (List Nat)) (t : List Nat) : List (List Nat) :=
  if t ∈ acc then acc else acc ++ [t]

/-- The five-word fingerprint tuples a document contributes to the merge:
`numBlocks` groups read from offset 2 (src/index.js:541-551). -/
def docTuples (doc : List Nat) : List (List Nat) :=
  (List.range (doc.getD 1 0)).map fun k =>
    [doc.getD (2 + 5 * k) 0, doc.getD (2 + 5 * k + 1) 0, doc.getD (2 + 5 * k + 2) 0,
     doc.getD (2 + 5 * k + 3) 0, doc.getD (2 + 5 * k + 4) 0]

/-- Embeds `mergeChecksumDocuments` (src/index.js:527-571): requires at
least one document and a common block size, unions the fingerprint tuples
keeping first occurrences, and serialises `[blockSize, count]` followed by
the surviving tuples in first-appearance order (their positions are the new
block indices). -/
def mergeChecksumDocuments (docs : List (List Nat)) : Except String (List Nat) :=
  if docs = [] then .error "At least one checksum document required"
  else
    let blockSize := (docs.headD []).getD 0 0
    if docs.all (fun d => d.getD 0 0 = blockSize) then
      let merged := (docs.flatMap docTuples).foldl dedupInsert []
      .ok ([blockSize, merged.length] ++ merged.flatten)
    else .error "All checksum documents must have the same block size"

/-- A never-aborting cancellation token (no `signal` option passed). -/
def noSignal : Nat → Bool := fun _ => false

/-- Concrete 128-bit digest used to instantiate the abstract collaborator
in closed-form evaluations: the base-256 value of the block (with a leading
1 to make lengths matter) split into 32-bit lanes.  Injective on byte
blocks of up to eleven bytes, hence collision-free on every block involved
in the evaluations below. -/
def testHash (bs : List Nat) : Digest :=
  let e := bs.foldl (fun a b => a * 256 + b) 1
  ⟨e % 4294967296, e / 4294967296 % 4294967296, e / 18446744073709551616 % 4294967296, 0⟩

/-- Weak checksum of a byte window, written from the specification's words
(section 4.1): `A = (Σ d[i]) mod 65536`, `B = (Σ A_i) mod 65536` with `A_i`
the running `A`, combined 32-bit value `(B << 16) | A` unsigned.  Stated
over the window itself; claim C9 relates it to `adler32`'s clamped
index-based loop. -/
def adler32Spec (window : List Nat) : AdlerInfo :=
  let p := window.foldl (fun (p : Nat × Nat) x => (p.1 + x, p.2 + p.1 + x)) (0, 0)
  let a := p.1 % HASH_TABLE_SIZE
  let b := p.2 % HASH_TABLE_SIZE
  { a := (a : Int), b := (b : Int), checksum := ((Nat.lor (b <<< 16) a : Nat) : Int) }

/-- The window `d[offset .. min(stop, |d|-1)]` as a list (empty when the
clamped stop precedes the offset). -/
def clampedWindow (offset stop : Nat) (data : List Nat) : List Nat :=
  (data.drop offset).take (min (stop + 1) data.length - offset)

/-- The 130-byte buffer of `0xFF` bytes on which the rolling update's
missing unsigned conversion shows: the fresh `b` component is `41023 ≥ 2^15`,
so the fresh combined value keeps the sign bit cleared by `>>> 0` while the
rolled one does not. -/
def dC2 : List Nat := List.replicate 130 255

/-- Destination buffer of claim C1's failing input: `"AAAABBBB"`. -/
def dC1 : List Nat := [65, 65, 65, 65, 66, 66, 66, 66]

/-- Source buffer of claim C1's failing input: `"BBBBxAAAA"` — destination
blocks reordered with a literal between them. -/
def sC1 : List Nat := [66, 66, 66, 66, 120, 65, 65, 65, 65]

/-- Fingerprint document of `dC1` at block size 4. -/
def chkC1 : List Nat := ((createChecksumDocument testHash 4 dC1 noSignal).1).toOption.getD []

/-- Patch document built from `chkC1` and `sC1`. -/
def patchC1 : List Nat :=
  (((createPatchDocument testHash chkC1 sC1 noSignal).getD (.error "", [])).1).toOption.getD []

/-- Every distinct byte window compared during the C1 evaluation (the two
destination blocks and the source windows the patch builder probes). -/
def involvedC1 : List (List Nat) :=
  [[65, 65, 65, 65], [66, 66, 66, 66], [120, 65, 65, 65]]

/-- Fingerprint document of `[0, 0]` at block size 1 (claim C3's
counterexample input: two identical one-byte blocks). -/
def chkC3 : List Nat := ((createChecksumDocument testHash 1 [0, 0] noSignal).1).toOption.getD []

/-- Patch document of buffer `[0, 0]` against its own fingerprint. -/
def patchC3 : List Nat :=
  (((createPatchDocument testHash chkC3 [0, 0] noSignal).getD (.error "", [])).1).toOption.getD []

/-- Patch document with a literal length that overruns the buffer: header
`{blockSize 4, patchCount 1, matchCount 0}`, one record `{anchor 0,
literalLength 100}` followed by only two literal bytes. -/
def pdC4 : List Nat :=
  uint32LE 4 ++ uint32LE 1 ++ uint32LE 0 ++ uint32LE 0 ++ uint32LE 100 ++ [7, 7]

/-- Patch document taken by the fast path of `applyPatch` against a 4-byte
destination: `{blockSize 4, patchCount 0, matchCount 1, matches [1]}`. -/
def pdC7 : List Nat := uint32LE 4 ++ uint32LE 0 ++ uint32LE 1 ++ uint32LE 1

/-- Index of the first occurrence of `x` in `l` (used to state the
first-appearance ordering of the merge survivors). -/
def firstIdx (l : List (List Nat)) (x : List Nat) : Nat := l.findIdx (fun y => y = x)

/-- The block index the patch builder's probe returns for the window that
sits exactly on block `k` of the destination used as source (the self-patch
walk of claim C3): the first fingerprint whose weak sum and digest both
match block `k`. -/
def selfMatch (md5fn : List Nat → Digest) (blockSize : Nat) (data : List Nat)
    (table : List (Int × List ChecksumEntry)) (k : Nat) : Nat :=
  (checkMatch md5fn (blockAdler blockSize data k) table (blockChunk blockSize data k)).getD 0

/-- The fingerprint row the parse loop reconstructs for block `i` of a
buffer fingerprinted against itself: 1-based index, stored weak sum and the
four digest lanes. -/
def selfEntry (md5fn : List Nat → Digest) (blockSize : Nat) (data : List Nat)
    (i : Nat) : ChecksumEntry :=
  ⟨i + 1, toUint32Int (blockAdler blockSize data i).checksum,
    (md5fn (blockChunk blockSize data i)).words⟩

/-- Match-list invariant of the self-patch walk (claim C3): `k` matches
recorded so far, each a valid 1-based block index whose destination bytes
equal the corresponding source block. -/
def goodMatches (blockSize : Nat) (data : List Nat) (ms : List Nat) (k : Nat) : Prop :=
  ms.length = k ∧ ∀ p, p < k →
    1 ≤ ms.getD p 0 ∧ ms.getD p 0 ≤ ceilDiv data.length blockSize ∧
      blockChunk blockSize data (ms.getD p 0 - 1) = blockChunk blockSize data p


lemma toUint32Int_lt (n : Int) : toUint32Int n < 4294967296 := by
  unfold toUint32Int
  have h := Int.emod_lt_of_pos n (by norm_num : (0:Int) < 4294967296)
  omega

lemma toUint32Int_coe {n : Nat} (h : n < 4294967296) : toUint32Int (n : Int) = n := by
  unfold toUint32Int
  rw [Int.emod_eq_of_lt (by positivity) (by exact_mod_cast h)]
  simp

lemma toUint32Int_toInt32 (z : Int) : toUint32Int (toInt32 z) = toUint32Int z := by
  unfold toUint32Int toInt32
  simp only []
  split
  · rw [Int.emod_emod_of_dvd _ dvd_rfl]
  · rw [Int.sub_emod, Int.emod_emod_of_dvd _ dvd_rfl, Int.emod_self]
    simp

lemma jsOr_spec (x y : Int) : toUint32Int (jsOr x y) = Nat.lor (toUint32Int x) (toUint32Int y) := by
  unfold jsOr
  rw [toUint32Int_toInt32]
  have h : Nat.lor (toUint32Int x) (toUint32Int y) < 4294967296 := by
    have := Nat.or_lt_two_pow (n := 32) (toUint32Int_lt x) (toUint32Int_lt y)
    simpa using this
  exact toUint32Int_coe h

lemma jsShl16_spec {b : Nat} (hb : b < 65536) : toUint32Int (jsShl (b : Int) 16) = b * 65536 := by
  unfold jsShl
  rw [toUint32Int_toInt32]
  have h1 : toInt32 (b : Int) = (b : Int) := by
    unfold toInt32
    simp only []
    rw [Int.emod_eq_of_lt (by positivity) (by omega)]
    split <;> omega
  rw [h1]
  have h2 : ((b : Int) * (((2:Nat) ^ 16 : Nat) : Int)) = ((b * 65536 : Nat) : Int) := by
    push_cast
    norm_num
  rw [h2]
  exact toUint32Int_coe (by omega)

lemma adler32Indices_map (offset stop : Nat) (data : List Nat) :
    (adler32Indices offset stop data).map (fun i => data.getD i 0) =
      clampedWindow offset stop data := by
  unfold adler32Indices clampedWindow
  apply List.ext_getElem
  · simp only [List.length_map, List.length_range, List.length_take, List.length_drop]
    omega
  · intro t h1 h2
    simp only [List.length_map, List.length_range] at h1
    have hb : offset + t < data.length := by omega
    simp only [List.getElem_map, List.getElem_range, List.getElem_take, List.getElem_drop]
    rw [List.getD_eq_getElem data 0 hb]

/-- Claim C9 (confirmed) — the weak checksum clamps its end index: every
index `adler32` reads is strictly in bounds, and its value is exactly the
specification weak checksum (`adler32Spec`) of the window
`d[offset .. min(stop, |d|-1)]`, so an end index at or past `|d|` causes no
out-of-bounds read and returns the checksum of the in-range part of the
requested window. -/
theorem c9_adler32_clamps_end (offset stop : Nat) (data : List Nat) :
    adler32 offset stop data = adler32Spec (clampedWindow offset stop data) ∧
      ∀ i ∈ adler32Indices offset stop data, i < data.length := by
  constructor
  · simp only [adler32, adler32Spec]
    rw [← adler32Indices_map offset stop data, List.foldl_map]
    set p := (adler32Indices offset stop data).foldl (fun (p : Nat × Nat) i =>
        (p.1 + data.getD i 0, p.2 + p.1 + data.getD i 0)) (0, 0) with hp
    have ha : p.1 % HASH_TABLE_SIZE < 65536 := Nat.mod_lt _ (by norm_num [HASH_TABLE_SIZE])
    have hb : p.2 % HASH_TABLE_SIZE < 65536 := Nat.mod_lt _ (by norm_num [HASH_TABLE_SIZE])
    simp only [AdlerInfo.mk.injEq]
    refine ⟨trivial, trivial, ?_⟩
    rw [jsOr_spec, jsShl16_spec hb,
      toUint32Int_coe (by omega : p.1 % HASH_TABLE_SIZE < 4294967296), Nat.shiftLeft_eq]
  · intro i hi
    unfold adler32Indices at hi
    simp only [List.mem_map, List.mem_range] at hi
    obtain ⟨t, ht, rfl⟩ := hi
    omega

/-- Claim C2 (code bug) — evaluation of the rolling update at the concrete
window of 130 `0xFF` bytes: one rolling step from the fresh checksum of
`d[0..128]` to `d[1..129]` reproduces the `a` and `b` components of the
fresh checksum but *not* the combined 32-bit value, which comes out
negative because `rollingChecksum` omits the `>>> 0` that `adler32`
applies (src/index.js:76 versus :83). -/
theorem c2_rolling_update_mismatch :
    (rollingChecksum (adler32 0 128 dC2) 1 129 dC2).a = (adler32 1 129 dC2).a ∧
      (rollingChecksum (adler32 0 128 dC2) 1 129 dC2).b = (adler32 1 129 dC2).b ∧
      (rollingChecksum (adler32 0 128 dC2) 1 129 dC2).checksum ≠ (adler32 1 129 dC2).checksum ∧
      (rollingChecksum (adler32 0 128 dC2) 1 129 dC2).checksum < 0 ∧
      (adler32 1 129 dC2).checksum = 2688516223 ∧
      (rollingChecksum (adler32 0 128 dC2) 1 129 dC2).checksum = -1606451073 := by
  decide


/-! ### First-occurrence deduplication (`mergeChecksumDocuments`) -/

lemma mem_dedupFoldl {x : List Nat} :
    ∀ (l acc : List (List Nat)), x ∈ l.foldl dedupInsert acc ↔ x ∈ acc ∨ x ∈ l := by
  intro l
  induction l with
  | nil => simp
  | cons t r ih =>
    intro acc
    simp only [List.foldl_cons, ih, dedupInsert]
    split
    · rename_i ht
      constructor
      · intro h
        rcases h with h | h
        · exact Or.inl h
        · exact Or.inr (List.mem_cons_of_mem _ h)
      · intro h
        rcases h with h | h
        · exact Or.inl h
        · rcases List.mem_cons.1 h with h | h
          · subst h; exact Or.inl ht
          · exact Or.inr h
    · constructor
      · intro h
        rcases h with h | h
        · rcases List.mem_append.1 h with h | h
          · exact Or.inl h
          · simp only [List.mem_singleton] at h
            subst h; exact Or.inr (List.mem_cons_self _ _)
        · exact Or.inr (List.mem_cons_of_mem _ h)
      · intro h
        rcases h with h | h
        · exact Or.inl (List.mem_append_left _ h)
        · rcases List.mem_cons.1 h with h | h
          · subst h; exact Or.inl (List.mem_append_right _ (by simp))
          · exact Or.inr h

lemma nodup_dedupFoldl :
    ∀ (l acc : List (List Nat)), acc.Nodup → (l.foldl dedupInsert acc).Nodup := by
  intro l
  induction l with
  | nil => simp
  | cons t r ih =>
    intro acc hacc
    simp only [List.foldl_cons, dedupInsert]
    split
    · exact ih acc hacc
    · refine ih _ ?_
      rw [List.nodup_append]
      refine ⟨hacc, by simp, ?_⟩
      intro a ha hb
      simp only [List.mem_singleton] at hb
      rename_i ht
      exact ht (hb ▸ ha)

lemma sublist_dedupFoldl :
    ∀ (l acc : List (List Nat)), ∃ s, l.foldl dedupInsert acc = acc ++ s ∧ s.Sublist l := by
  intro l
  induction l with
  | nil => exact fun acc => ⟨[], by simp⟩
  | cons t r ih =>
    intro acc
    simp only [List.foldl_cons, dedupInsert]
    split
    · obtain ⟨s, hs, hsub⟩ := ih acc
      exact ⟨s, hs, hsub.cons t⟩
    · obtain ⟨s, hs, hsub⟩ := ih (acc ++ [t])
      exact ⟨t :: s, by simpa using hs, hsub.cons₂ t⟩

lemma firstIdx_lt_of_mem {x : List Nat} {l : List (List Nat)} (h : x ∈ l) :
    firstIdx l x < l.length :=
  List.findIdx_lt_length_of_exists ⟨x, h, by simp⟩

lemma firstIdx_append_of_not_mem {x : List Nat} {l₁ : List (List Nat)} (l₂ : List (List Nat))
    (h : x ∉ l₁) : firstIdx (l₁ ++ l₂) x = l₁.length + firstIdx l₂ x := by
  unfold firstIdx
  rw [List.findIdx_append]
  have he : l₁.findIdx (fun y => y = x) = l₁.length := by
    rw [List.findIdx_eq_length]
    intro y hy
    simp only [decide_eq_false_iff_not]
    intro hyx
    subst hyx
    exact h hy
  rw [he]
  simp only [lt_self_iff_false, if_false]
  omega

lemma firstIdx_append_of_mem {x : List Nat} {l₁ : List (List Nat)} (l₂ : List (List Nat))
    (h : x ∈ l₁) : firstIdx (l₁ ++ l₂) x = firstIdx l₁ x := by
  unfold firstIdx
  rw [List.findIdx_append, if_pos (List.findIdx_lt_length_of_exists ⟨x, h, by simp⟩)]

lemma pairwise_dedupFoldl (l : List (List Nat)) :
    ∀ (todo done acc : List (List Nat)), l = done ++ todo →
      (∀ x, x ∈ acc ↔ x ∈ done) →
      acc.Pairwise (fun a b => firstIdx l a < firstIdx l b) →
      (∀ x ∈ acc, firstIdx l x < done.length) →
      (todo.foldl dedupInsert acc).Pairwise (fun a b => firstIdx l a < firstIdx l b) := by
  intro todo
  induction todo with
  | nil => intro done acc _ _ hpw _; simpa using hpw
  | cons t r ih =>
    intro done acc hl hmem hpw hidx
    simp only [List.foldl_cons, dedupInsert]
    split
    · rename_i ht
      refine ih (done ++ [t]) acc (by simpa using hl) ?_ hpw ?_
      · intro x
        rw [hmem]
        constructor
        · intro h; exact List.mem_append_left _ h
        · intro h
          rcases List.mem_append.1 h with h | h
          · exact h
          · simp only [List.mem_singleton] at h
            exact h.symm ▸ ((hmem t).1 ht)
      · intro x hx
        have := hidx x hx
        simp only [List.length_append, List.length_singleton]
        omega
    · rename_i ht
      have htd : t ∉ done := fun h => ht ((hmem t).2 h)
      have hidxt : firstIdx l t = done.length := by
        rw [hl, firstIdx_append_of_not_mem _ htd]
        unfold firstIdx
        rw [List.findIdx_cons]
        simp
      refine ih (done ++ [t]) (acc ++ [t]) (by simpa using hl) ?_ ?_ ?_
      · intro x
        simp only [List.mem_append, List.mem_singleton, hmem]
      · rw [List.pairwise_append]
        refine ⟨hpw, by simp, ?_⟩
        intro a ha b hb
        simp only [List.mem_singleton] at hb
        subst hb
        have := hidx a ha
        omega
      · intro x hx
        rcases List.mem_append.1 hx with hx | hx
        · have := hidx x hx
          simp only [List.length_append, List.length_singleton]
          omega
        · simp only [List.mem_singleton] at hx
          subst hx
          simp only [List.length_append, List.length_singleton]
          omega

lemma dedupFoldl_of_nodup :
    ∀ (l acc : List (List Nat)), (∀ x ∈ l, x ∉ acc) → l.Nodup →
      l.foldl dedupInsert acc = acc ++ l := by
  intro l
  induction l with
  | nil => simp
  | cons t r ih =>
    intro acc hdisj hnd
    simp only [List.foldl_cons, dedupInsert]
    rw [if_neg (hdisj t (by simp))]
    rw [ih (acc ++ [t]) ?_ hnd.of_cons]
    · simp
    · intro x hx
      simp only [List.mem_append, List.mem_singleton]
      push_neg
      refine ⟨hdisj x (by simp [hx]), ?_⟩
      intro h
      subst h
      exact (List.nodup_cons.1 hnd).1 hx

lemma docTuples_length5 {doc t : List Nat} (h : t ∈ docTuples doc) : t.length = 5 := by
  unfold docTuples at h
  simp only [List.mem_map] at h
  obtain ⟨k, _, rfl⟩ := h
  rfl

lemma flatten_getD_five :
    ∀ (ts : List (List Nat)), (∀ t ∈ ts, t.length = 5) →
      ∀ k r, k < ts.length → r < 5 →
        ts.flatten.getD (5 * k + r) 0 = (ts.getD k []).getD r 0 := by
  intro ts
  induction ts with
  | nil => intro _ k r hk _; simp at hk
  | cons t rest ih =>
    intro h5 k r hk hr
    have ht5 : t.length = 5 := h5 t (by simp)
    match k with
    | 0 =>
      simp only [Nat.mul_zero, Nat.zero_add, List.flatten_cons, List.getD_cons_zero]
      rw [List.getD_append _ _ _ _ (by omega)]
    | k + 1 =>
      have he : 5 * (k + 1) + r = t.length + (5 * k + r) := by omega
      simp only [List.flatten_cons, he, List.getD_cons_succ]
      rw [List.getD_append_right _ _ _ _ (by omega)]
      have h2 : t.length + (5 * k + r) - t.length = 5 * k + r := by omega
      rw [h2]
      exact ih (fun u hu => h5 u (by simp [hu])) k r (by simpa using hk) hr

lemma docTuples_serialize (bs : Nat) (ts : List (List Nat)) (h5 : ∀ t ∈ ts, t.length = 5) :
    docTuples (bs :: ts.length :: ts.flatten) = ts := by
  unfold docTuples
  have hn : (bs :: ts.length :: ts.flatten).getD 1 0 = ts.length := rfl
  rw [hn]
  apply List.ext_getElem
  · simp
  · intro k hk1 hk2
    simp only [List.length_map, List.length_range] at hk1
    simp only [List.getElem_map, List.getElem_range]
    have hread : ∀ r, r < 5 →
        (bs :: ts.length :: ts.flatten).getD (2 + 5 * k + r) 0 = (ts.getD k []).getD r 0 := by
      intro r hr
      have he : 2 + 5 * k + r = (5 * k + r) + 1 + 1 := by omega
      rw [he, List.getD_cons_succ, List.getD_cons_succ]
      exact flatten_getD_five ts h5 k r hk1 hr
    have htk : ts[k].length = 5 := h5 _ (List.getElem_mem hk2)
    have htg : ts.getD k [] = ts[k] := List.getD_eq_getElem ts [] hk2
    have h0 := hread 0 (by omega)
    have h1 := hread 1 (by omega)
    have h2 := hread 2 (by omega)
    have h3 := hread 3 (by omega)
    have h4 := hread 4 (by omega)
    rw [htg] at h0 h1 h2 h3 h4
    rcases hts : ts[k] with _ | ⟨a0, _ | ⟨a1, _ | ⟨a2, _ | ⟨a3, _ | ⟨a4, rest⟩⟩⟩⟩⟩ <;>
      rw [hts] at htk <;> simp only [List.length_cons, List.length_nil] at htk <;> try omega
    have hrest : rest = [] := by
      have : rest.length = 0 := by omega
      exact List.length_eq_zero.1 this
    subst hrest
    rw [hts] at h0 h1 h2 h3 h4
    simp only [Nat.add_zero] at h0
    rw [h0, h1, h2, h3, h4]
    rfl

lemma countP_eq_one_of_nodup_mem {t : List Nat} :
    ∀ {l : List (List Nat)}, l.Nodup → t ∈ l → l.countP (fun y => y = t) = 1 := by
  intro l
  induction l with
  | nil => intro _ h; simp at h
  | cons a r ih =>
    intro hnd h
    rcases List.mem_cons.1 h with h | h
    · subst h
      rw [List.countP_cons]
      simp only [decide_eq_true_eq]
      have hz : r.countP (fun y => y = t) = 0 := by
        rw [List.countP_eq_zero]
        intro y hy
        simp only [decide_eq_true_eq]
        intro hyt
        subst hyt
        exact (List.nodup_cons.1 hnd).1 hy
      simp [hz]
    · rw [List.countP_cons]
      have hat : (a = t) = False := by
        simp only [eq_iff_iff, iff_false]
        intro hh
        subst hh
        exact (List.nodup_cons.1 hnd).1 h
      simp only [hat, decide_false_eq_false, Bool.false_eq_true, if_false]
      simpa using ih (List.nodup_cons.1 hnd).2 h

/-- Claim C6 (confirmed) — merge deduplication: for a non-empty list of
fingerprint documents sharing one block size, `mergeChecksumDocuments`
succeeds and its output tuples (read back positionally, so the emitted
block indices are `1..N'`) are: counted exactly in the header word, as many
as the distinct five-word `(weak, s0, s1, s2, s3)` tuples across all
inputs, containing every fingerprint occurring in any input exactly once,
a subsequence of the concatenated inputs, and listed in order of first
appearance across the inputs. -/
theorem c6_merge_dedup (docs : List (List Nat)) (hne : docs ≠ [])
    (hbs : ∀ doc ∈ docs, doc.getD 0 0 = (docs.headD []).getD 0 0) :
    ∃ m, mergeChecksumDocuments docs = .ok m ∧
      m.getD 1 0 = (docTuples m).length ∧
      (docTuples m).length = (docs.flatMap docTuples).toFinset.card ∧
      (∀ t ∈ docs.flatMap docTuples, (docTuples m).countP (fun y => y = t) = 1) ∧
      (docTuples m).Sublist (docs.flatMap docTuples) ∧
      (docTuples m).Pairwise (fun a b =>
        firstIdx (docs.flatMap docTuples) a < firstIdx (docs.flatMap docTuples) b) := by
  have hall : docs.all (fun d => d.getD 0 0 = (docs.headD []).getD 0 0) = true := by
    rw [List.all_eq_true]
    intro d hd
    simpa using hbs d hd
  set flat := docs.flatMap docTuples with hflat
  set merged := flat.foldl dedupInsert [] with hmerged
  have h5 : ∀ t ∈ merged, t.length = 5 := by
    intro t ht
    rcases (mem_dedupFoldl flat []).1 ht with h | h
    · simp at h
    · rw [hflat] at h
      simp only [List.mem_flatMap] at h
      obtain ⟨doc, _, hdt⟩ := h
      exact docTuples_length5 hdt
  have hnd : merged.Nodup := nodup_dedupFoldl flat [] List.nodup_nil
  have hmem : ∀ x, x ∈ merged ↔ x ∈ flat := by
    intro x
    rw [hmerged, mem_dedupFoldl]
    simp
  have hser : docTuples ((docs.headD []).getD 0 0 :: merged.length :: merged.flatten) =
      merged := docTuples_serialize _ merged h5
  refine ⟨(docs.headD []).getD 0 0 :: merged.length :: merged.flatten, ?_, ?_, ?_, ?_, ?_, ?_⟩
  · simp only [mergeChecksumDocuments]
    rw [if_neg hne, if_pos hall]
    rfl
  · rw [hser]
    rfl
  · rw [hser]
    have hfs : merged.toFinset = flat.toFinset := by
      ext x
      simp only [List.mem_toFinset]
      exact hmem x
    rw [← hfs, List.toFinset_card_of_nodup hnd]
  · intro t ht
    rw [hser]
    exact countP_eq_one_of_nodup_mem hnd ((hmem t).2 ht)
  · rw [hser]
    obtain ⟨s, hs, hsub⟩ := sublist_dedupFoldl flat []
    have hms : merged = s := by rw [hmerged, hs]; rfl
    rw [hms]
    exact hsub
  · rw [hser]
    exact pairwise_dedupFoldl flat flat [] [] rfl (by simp) (by simp) (by simp)

/-- Claim C10 (confirmed) — merge idempotence: any document produced by
`mergeChecksumDocuments` merges to itself unchanged, so merging a merged
(hence deduplicated) fingerprint document is the identity. -/
theorem c10_merge_idempotent (docs : List (List Nat)) (m : List Nat)
    (h : mergeChecksumDocuments docs = .ok m) :
    mergeChecksumDocuments [m] = .ok m := by
  simp only [mergeChecksumDocuments] at h
  split at h
  · exact absurd h (by simp)
  · split at h
    · simp only [Except.ok.injEq] at h
      set flat := docs.flatMap docTuples with hflat
      set merged := flat.foldl dedupInsert [] with hmerged
      have h5 : ∀ t ∈ merged, t.length = 5 := by
        intro t ht
        rcases (mem_dedupFoldl flat []).1 ht with hx | hx
        · simp at hx
        · rw [hflat] at hx
          simp only [List.mem_flatMap] at hx
          obtain ⟨doc, _, hdt⟩ := hx
          exact docTuples_length5 hdt
      have hnd : merged.Nodup := nodup_dedupFoldl flat [] List.nodup_nil
      have hm : m = (docs.headD []).getD 0 0 :: merged.length :: merged.flatten := h.symm
      have hser : docTuples m = merged := by
        rw [hm]
        exact docTuples_serialize _ merged h5
      simp only [mergeChecksumDocuments]
      rw [if_neg (by simp : ¬([m] = ([] : List (List Nat))))]
      rw [if_pos (by simp : ([m].all fun d => d.getD 0 0 = ([m].headD []).getD 0 0) = true)]
      have hflat1 : [m].flatMap docTuples = merged := by
        simp [hser]
      rw [hflat1, dedupFoldl_of_nodup merged [] (by simp) hnd]
      simp only [List.nil_append, Except.ok.injEq]
      rw [hm]
      rfl
    · exact absurd h (by simp)


/-! ### The patch applicator -/

lemma copyBlock_ok {data : List Nat} {blockSize j : Nat} (h1 : 1 ≤ j)
    (h2 : (j - 1) * blockSize ≤ data.length) :
    copyBlock data blockSize j = .ok (blockBytes data blockSize j) := by
  simp only [copyBlock, blockBytes]
  have hs : ((j : Int) - 1) * (blockSize : Int) = (((j - 1) * blockSize : Nat) : Int) := by
    push_cast [h1]
    ring
  rw [hs]
  have hc : min (blockSize : Int) ((data.length : Int) - (((j - 1) * blockSize : Nat) : Int)) =
      ((min blockSize (data.length - (j - 1) * blockSize) : Nat) : Int) := by
    push_cast [h2]
    omega
  rw [hc]
  rw [if_neg (by push_cast; omega)]
  rw [Int.toNat_natCast, Int.toNat_natCast]

lemma drainMatches_ok {data : List Nat} {blockSize anchor : Nat} :
    ∀ (ms : List Nat), (∀ j ∈ ms, 1 ≤ j ∧ (j - 1) * blockSize ≤ data.length) →
      ∃ bs rem c, drainMatches data blockSize anchor ms = .ok (bs, rem, c) ∧
        (∀ j ∈ rem, 1 ≤ j ∧ (j - 1) * blockSize ≤ data.length) := by
  intro ms
  induction ms with
  | nil => intro _; exact ⟨[], [], 0, rfl, by simp⟩
  | cons j rest ih =>
    intro hv
    unfold drainMatches
    by_cases hj : j > anchor
    · exact ⟨[], j :: rest, 0, by rw [if_pos hj], hv⟩
    · rw [if_neg hj]
      obtain ⟨h1, h2⟩ := hv j (by simp)
      rw [copyBlock_ok h1 h2]
      obtain ⟨bs, rem, c, hdr, hrem⟩ := ih (fun x hx => hv x (by simp [hx]))
      rw [hdr]
      exact ⟨blockBytes data blockSize j ++ bs, rem, c + 1, rfl, hrem⟩

lemma drainAll_ok {data : List Nat} {blockSize : Nat} :
    ∀ (ms : List Nat), (∀ j ∈ ms, 1 ≤ j ∧ (j - 1) * blockSize ≤ data.length) →
      drainAll data blockSize ms = .ok ((ms.map (blockBytes data blockSize)).flatten, ms.length) := by
  intro ms
  induction ms with
  | nil => intro _; rfl
  | cons j rest ih =>
    intro hv
    unfold drainAll
    obtain ⟨h1, h2⟩ := hv j (by simp)
    rw [copyBlock_ok h1 h2, ih (fun x hx => hv x (by simp [hx]))]
    simp

lemma applyRecords_ok {data pd : List Nat} {blockSize total : Nat} :
    ∀ (fuel : Nat) (st : ApplyState),
      (∀ j ∈ st.mlist, 1 ≤ j ∧ (j - 1) * blockSize ≤ data.length) →
      ∃ st', applyRecords data pd blockSize total noSignal fuel st = (none, st') ∧
        (∀ j ∈ st'.mlist, 1 ≤ j ∧ (j - 1) * blockSize ≤ data.length) := by
  intro fuel
  induction fuel with
  | zero => intro st hv; exact ⟨st, rfl, hv⟩
  | succ n ih =>
    intro st hv
    unfold applyRecords
    simp only [noSignal, Bool.false_eq_true, if_false]
    obtain ⟨bs, rem, c, hdr, hrem⟩ := drainMatches_ok st.mlist hv
    rw [hdr]
    exact ih _ hrem

/-- Claim C4 (amended, proved) — `applyPatch` performs no literal-length
validation: whenever the patch document holds its full header and match
table and every matched block index `j` is positive with block start
`(j-1)·B` inside the destination, `applyPatch` succeeds — even when a patch
record's declared `literalLength` runs past the end of the patch document
(the literal is clamped by `subarray`, never rejected). -/
theorem c4_no_corrupt_patch_error (pd data : List Nat)
    (hlen : 12 + 4 * patchMatchCount pd ≤ pd.length)
    (hidx : ∀ j ∈ patchMatches pd, 1 ≤ j ∧ (j - 1) * patchBlockSize pd ≤ data.length) :
    ∃ out, (applyPatch pd data noSignal).1 = .ok out := by
  simp only [applyPatch]
  rw [if_neg (by omega), if_neg (by omega)]
  by_cases hf : fastPathOk pd data
  · rw [if_pos hf]
    exact ⟨data, rfl⟩
  · rw [if_neg hf]
    obtain ⟨st', hrec, hrem⟩ := applyRecords_ok (patchPatchCount pd)
      { patchOffset := 12 + 4 * patchMatchCount pd, recIndex := 0,
        mlist := patchMatches pd, blocksApplied := 0, result := [], events := [] } hidx
    rw [hrec]
    dsimp only []
    rw [drainAll_ok st'.mlist hrem]
    exact ⟨st'.result ++ (st'.mlist.map (blockBytes data (patchBlockSize pd))).flatten, rfl⟩

/-- Claim C4 (counterexample) — a patch record whose declared literal
length (100) overruns the 22-byte patch document `pdC4` does not raise any
error: `applyPatch` silently clamps the literal and returns the two
available bytes. -/
theorem c4_literal_overrun_not_rejected :
    readUint32LE pdC4 16 = 100 ∧ pdC4.length = 22 ∧ 22 < 20 + 100 ∧
      (applyPatch pdC4 [1, 2, 3] noSignal).1 = .ok [7, 7] := by
  decide

/-- Claim C5 (confirmed) — the fast-path guard: the guard holds exactly
when the patch has no records, its match count equals `⌈|d|/B⌉` and its
match indices are the strict sequence `1, 2, …, M`; when it holds
`applyPatch` returns the destination unchanged (and emits nothing), and for
a record-free patch whoses match sequence fails the guard the general path
runs instead, assembling the output from the matched blocks in the exact
order listed. -/
theorem c5_fast_path_guard (pd data : List Nat)
    (hlen : 12 + 4 * patchMatchCount pd ≤ pd.length)
    (hB : 0 < patchBlockSize pd) :
    (fastPathOk pd data = true ↔
      (patchPatchCount pd = 0 ∧ patchMatchCount pd = ceilDiv data.length (patchBlockSize pd) ∧
        patchMatches pd = (List.range (patchMatchCount pd)).map (· + 1))) ∧
    (fastPathOk pd data = true → applyPatch pd data noSignal = (.ok data, [])) ∧
    (patchPatchCount pd = 0 → fastPathOk pd data = false →
      (∀ j ∈ patchMatches pd, 1 ≤ j ∧ (j - 1) * patchBlockSize pd ≤ data.length) →
      (applyPatch pd data noSignal).1 =
        .ok (((patchMatches pd).map (blockBytes data (patchBlockSize pd))).flatten)) := by
  refine ⟨?_, ?_, ?_⟩
  · unfold fastPathOk
    simp only [decide_eq_true_eq]
    constructor
    · rintro ⟨h1, _, h3, h4⟩
      exact ⟨h1, h3, h4⟩
    · rintro ⟨h1, h3, h4⟩
      exact ⟨h1, hB, h3, h4⟩
  · intro hf
    simp only [applyPatch]
    rw [if_neg (by omega), if_neg (by omega), if_pos hf]
  · intro hp hf hidx
    simp only [applyPatch]
    rw [if_neg (by omega), if_neg (by omega), if_neg (by simp [hf])]
    rw [hp]
    simp only [applyRecords]
    rw [drainAll_ok (patchMatches pd) hidx]
    rfl


/-! ### Fingerprint progress events -/

lemma checksumLoop_cons (md5fn : List Nat → Digest) (blockSize : Nat) (data : List Nat)
    (numBlocks : Nat) (signal : Nat → Bool) (i : Nat) (rest : List Nat)
    (hs : signal i = false) :
    (checksumLoop md5fn blockSize data numBlocks signal (i :: rest)).2 =
      ((if i % 100 = 0 ∨ i = numBlocks - 1 then
          [⟨"checksum", i + 1, numBlocks, ((i : ℚ) + 1) / (numBlocks : ℚ) * 100⟩] else []) ++
        (checksumLoop md5fn blockSize data numBlocks signal rest).2) ∧
    (checksumLoop md5fn blockSize data numBlocks signal (i :: rest)).1.isOk =
      (checksumLoop md5fn blockSize data numBlocks signal rest).1.isOk := by
  simp only [checksumLoop, hs, Bool.false_eq_true, if_false]
  rcases hrec : checksumLoop md5fn blockSize data numBlocks signal rest with ⟨res, evs⟩
  cases res with
  | error e => exact ⟨rfl, rfl⟩
  | ok ws => exact ⟨rfl, rfl⟩

lemma checksumLoop_events_form (md5fn : List Nat → Digest) (blockSize : Nat) (data : List Nat)
    (numBlocks : Nat) (signal : Nat → Bool) :
    ∀ is : List Nat, ∃ n, n ≤ is.length ∧
      (checksumLoop md5fn blockSize data numBlocks signal is).2 =
        ((is.take n).filter (fun i => decide (i % 100 = 0 ∨ i = numBlocks - 1))).map
          (fun i => ⟨"checksum", i + 1, numBlocks, ((i : ℚ) + 1) / (numBlocks : ℚ) * 100⟩) ∧
      ((checksumLoop md5fn blockSize data numBlocks signal is).1.isOk = true → n = is.length) ∧
      ((checksumLoop md5fn blockSize data numBlocks signal is).1.isOk = false → n < is.length) := by
  intro is
  induction is with
  | nil => exact ⟨0, by simp, rfl, fun _ => rfl, fun h => by simp [checksumLoop, Except.isOk, Except.toBool] at h⟩
  | cons i rest ih =>
    by_cases hs : signal i
    · refine ⟨0, by simp, ?_, ?_, ?_⟩
      · simp [checksumLoop, hs]
      · intro h
        simp only [checksumLoop, hs, if_true] at h
        simp [Except.isOk, Except.toBool] at h
      · intro _
        simp
    · obtain ⟨n, hn, hevs, hok, herr⟩ := ih
      obtain ⟨hcons, hbok⟩ := checksumLoop_cons md5fn blockSize data numBlocks signal i rest
        (Bool.not_eq_true _ ▸ hs)
      refine ⟨n + 1, by simpa using hn, ?_, ?_, ?_⟩
      · rw [hcons, hevs]
        simp only [List.take_succ_cons, List.filter_cons]
        by_cases hc : (i % 100 = 0 ∨ i = numBlocks - 1)
        · rw [if_pos hc]
          have : decide (i % 100 = 0 ∨ i = numBlocks - 1) = true := by simpa using hc
          rw [this]
          simp
        · rw [if_neg hc]
          have : decide (i % 100 = 0 ∨ i = numBlocks - 1) = false := by simpa using hc
          rw [this]
          simp
      · intro h
        rw [hbok] at h
        rw [hok h]
        simp
      · intro h
        rw [hbok] at h
        have := herr h
        simp only [List.length_cons]
        omega

lemma validateBlockSize_pos {blockSize dataSize bs : Nat}
    (h : validateBlockSize blockSize dataSize = .ok bs) : 1 ≤ bs := by
  unfold validateBlockSize at h
  split at h
  · exact absurd h (by simp)
  · split at h
    · exact absurd h (by simp)
    · split at h
      · simp only [Except.ok.injEq] at h
        omega
      · simp only [Except.ok.injEq] at h
        rename_i h1 _ _
        omega

lemma checksumLoop_noSignal_ok (md5fn : List Nat → Digest) (blockSize : Nat) (data : List Nat)
    (numBlocks : Nat) :
    ∀ is : List Nat, (checksumLoop md5fn blockSize data numBlocks noSignal is).1.isOk = true := by
  intro is
  induction is with
  | nil => rfl
  | cons i rest ih =>
    rw [(checksumLoop_cons md5fn blockSize data numBlocks noSignal i rest rfl).2]
    exact ih

lemma createChecksumDocument_events_pair (md5fn : List Nat → Digest) (blockSize : Nat)
    (data : List Nat) (bs : Nat) (hv : validateBlockSize blockSize data.length = .ok bs) :
    (createChecksumDocument md5fn blockSize data noSignal).2 =
      (checksumLoop md5fn bs data (ceilDiv data.length bs) noSignal
        (List.range (ceilDiv data.length bs))).2 := by
  simp only [createChecksumDocument, hv]
  rcases hrec : checksumLoop md5fn bs data (ceilDiv data.length bs) noSignal
      (List.range (ceilDiv data.length bs)) with ⟨res, evs⟩
  cases res with
  | error e => rfl
  | ok ws => rfl

/-- Claim C8 (amended, proved) — fingerprint progress event shape: with a
progress sink attached and no cancellation, `createChecksumDocument` emits
exactly one event per block index `i` with `i % 100 = 0` or `i = N - 1`
(so after the 1st, 101st, … block and once at the final block), and every
event carries phase `"checksum"` — not `"fingerprint"` — together with
`blocksProcessed`, `totalBlocks` and `percent`. -/
theorem c8_fingerprint_progress_shape (md5fn : List Nat → Digest) (blockSize : Nat)
    (data : List Nat) (bs : Nat) (hv : validateBlockSize blockSize data.length = .ok bs) :
    (createChecksumDocument md5fn blockSize data noSignal).2 =
      ((List.range (ceilDiv data.length bs)).filter
          (fun i => decide (i % 100 = 0 ∨ i = ceilDiv data.length bs - 1))).map
        (fun i => ⟨"checksum", i + 1, ceilDiv data.length bs,
          ((i : ℚ) + 1) / ((ceilDiv data.length bs : ℕ) : ℚ) * 100⟩) := by
  rw [createChecksumDocument_events_pair md5fn blockSize data bs hv]
  obtain ⟨n, hn, hevs, hok, _⟩ := checksumLoop_events_form md5fn bs data
    (ceilDiv data.length bs) noSignal (List.range (ceilDiv data.length bs))
  rw [hevs, hok (checksumLoop_noSignal_ok md5fn bs data _ _)]
  rw [List.take_of_length_le (by simp)]

/-- Claim C8 (counterexample) — the single progress event of fingerprinting
a one-byte buffer carries phase `"checksum"`, not the claimed
`"fingerprint"`. -/
theorem c8_phase_checksum_not_fingerprint :
    ((createChecksumDocument testHash 1 [0] noSignal).2).map ChkEvent.phase = ["checksum"] ∧
      "checksum" ≠ "fingerprint" := by
  decide

lemma ratio_mono {N a b : ℚ} (hN : 0 ≤ N) (hab : a ≤ b) :
    a / N * 100 ≤ b / N * 100 := by
  rcases eq_or_lt_of_le hN with h | h
  · rw [← h]
    simp
  · have := (div_le_div_iff_of_pos_right h).2 hab
    nlinarith

lemma createChecksumDocument_pair (md5fn : List Nat → Digest) (blockSize : Nat)
    (data : List Nat) (bs : Nat) (signal : Nat → Bool)
    (hv : validateBlockSize blockSize data.length = .ok bs) :
    (createChecksumDocument md5fn blockSize data signal).2 =
      (checksumLoop md5fn bs data (ceilDiv data.length bs) signal
        (List.range (ceilDiv data.length bs))).2 := by
  simp only [createChecksumDocument, hv]
  rcases hrec : checksumLoop md5fn bs data (ceilDiv data.length bs) signal
      (List.range (ceilDiv data.length bs)) with ⟨res, evs⟩
  cases res with
  | error e => rfl
  | ok ws => rfl

lemma chk_events_chain (md5fn : List Nat → Digest) (blockSize : Nat) (data : List Nat)
    (signal : Nat → Bool) :
    List.Chain' (fun a b : ChkEvent => a.percent ≤ b.percent)
      (createChecksumDocument md5fn blockSize data signal).2 := by
  rcases hv : validateBlockSize blockSize data.length with e | bs
  · simp only [createChecksumDocument, hv]
    exact List.chain'_nil
  · rw [createChecksumDocument_pair md5fn blockSize data bs signal hv]
    obtain ⟨n, hn, hevs, _, _⟩ := checksumLoop_events_form md5fn bs data
      (ceilDiv data.length bs) signal (List.range (ceilDiv data.length bs))
    rw [hevs]
    apply List.Pairwise.chain'
    rw [List.pairwise_map]
    apply List.Pairwise.filter
    apply List.Pairwise.sublist (List.take_sublist _ _)
    have hr : List.Pairwise (· < ·) (List.range (ceilDiv data.length bs)) :=
      List.pairwise_lt_range _
    apply hr.imp
    intro a b hab
    exact ratio_mono (by positivity)
      (by exact_mod_cast Nat.succ_le_succ (le_of_lt hab))

lemma chk_events_final (md5fn : List Nat → Digest) (blockSize : Nat) (data : List Nat)
    (bs : Nat) (hv : validateBlockSize blockSize data.length = .ok bs) (hd : data ≠ []) :
    ((createChecksumDocument md5fn blockSize data noSignal).2).getLast?.map ChkEvent.percent =
      some 100 := by
  rw [c8_fingerprint_progress_shape md5fn blockSize data bs hv]
  set N := ceilDiv data.length bs with hN
  have hbs := validateBlockSize_pos hv
  have hN1 : 1 ≤ N := by
    rw [hN]
    unfold ceilDiv
    have hlen : 1 ≤ data.length := by
      cases data
      · exact absurd rfl hd
      · simp
    have : 1 ≤ (data.length + bs - 1) / bs := Nat.le_div_iff_mul_le (by omega) |>.2 (by omega)
    omega
  have hsplit : List.range N = List.range (N - 1) ++ [N - 1] := by
    have : N = (N - 1) + 1 := by omega
    rw [this, List.range_succ]
    congr 1 <;> omega
  rw [hsplit, List.filter_append, List.map_append]
  have hlast : List.filter (fun i => decide (i % 100 = 0 ∨ i = N - 1)) [N - 1] = [N - 1] := by
    simp
  rw [hlast]
  simp only [List.map_cons, List.map_nil]
  rw [List.getLast?_concat, Option.map_some']
  congr 1
  have : ((N - 1 : Nat) : ℚ) + 1 = (N : ℚ) := by
    push_cast [hN1]
    ring
  rw [this, div_self (by positivity : (N : ℚ) ≠ 0)]
  norm_num

lemma chk_events_cancel (md5fn : List Nat → Digest) (blockSize : Nat) (data : List Nat)
    (signal : Nat → Bool) (e : String)
    (h : (createChecksumDocument md5fn blockSize data signal).1 = .error e) :
    ∀ ev ∈ (createChecksumDocument md5fn blockSize data signal).2, ev.percent < 100 := by
  rcases hv : validateBlockSize blockSize data.length with e' | bs
  · simp only [createChecksumDocument, hv]
    intro ev hev
    simp at hev
  · rw [createChecksumDocument_pair md5fn blockSize data bs signal hv]
    obtain ⟨n, hn, hevs, _, herr⟩ := checksumLoop_events_form md5fn bs data
      (ceilDiv data.length bs) signal (List.range (ceilDiv data.length bs))
    have hlooperr : (checksumLoop md5fn bs data (ceilDiv data.length bs) signal
        (List.range (ceilDiv data.length bs))).1.isOk = false := by
      simp only [createChecksumDocument, hv] at h
      rcases hrec : checksumLoop md5fn bs data (ceilDiv data.length bs) signal
          (List.range (ceilDiv data.length bs)) with ⟨res, evs⟩
      rw [hrec] at h
      cases res with
      | error e2 => rfl
      | ok ws => simp at h
    have hnlt : n < (List.range (ceilDiv data.length bs)).length := herr hlooperr
    simp only [List.length_range] at hnlt
    rw [hevs]
    intro ev hev
    simp only [List.mem_map, List.mem_filter] at hev
    obtain ⟨i, ⟨hi, _⟩, rfl⟩ := hev
    rw [List.take_range] at hi
    simp only [List.mem_range] at hi
    have hiN : i + 1 < ceilDiv data.length bs := by omega
    simp only []
    set N := ceilDiv data.length bs
    have hNpos : (0 : ℚ) < (N : ℚ) := by
      have : 0 < N := by omega
      positivity
    rw [div_mul_eq_mul_div, div_lt_iff₀ hNpos]
    have : ((i : ℚ) + 1) < (N : ℚ) := by
      exact_mod_cast hiN
    nlinarith


/-! ### Patch-builder progress events -/

lemma percent_lt_100 {bp len : Nat} (h : bp < len) :
    (bp : ℚ) / (len : ℚ) * 100 < 100 := by
  have hlen : (0 : ℚ) < (len : ℚ) := by
    have : 0 < len := by omega
    positivity
  rw [div_mul_eq_mul_div, div_lt_iff₀ hlen]
  have : (bp : ℚ) < (len : ℚ) := by exact_mod_cast h
  nlinarith

lemma patchEmit_shape (blockSize : Nat) (data : List Nat) (stOld stNew : PatchState) :
    (patchEmit blockSize data stOld stNew).i = stNew.i ∧
    ((patchEmit blockSize data stOld stNew).events = stNew.events ∨
      (patchEmit blockSize data stOld stNew).events = stNew.events ++
        [⟨"patch", stNew.i, data.length, stNew.matchCount, stNew.patchCount,
          (stNew.i : ℚ) / (data.length : ℚ) * 100⟩]) := by
  unfold patchEmit
  split
  · exact ⟨rfl, Or.inr rfl⟩
  · exact ⟨rfl, Or.inl rfl⟩

lemma patchStep_shape (md5fn : List Nat → Digest) (blockSize : Nat) (data : List Nat)
    (table : List (Int × List ChecksumEntry)) (st : PatchState) :
    st.i ≤ (patchStep md5fn blockSize data table st).i ∧
    ((patchStep md5fn blockSize data table st).events = st.events ∨
      ∃ mf pc, (patchStep md5fn blockSize data table st).events = st.events ++
        [⟨"patch", (patchStep md5fn blockSize data table st).i, data.length, mf, pc,
          (((patchStep md5fn blockSize data table st).i : ℚ)) / ((data.length : ℕ) : ℚ) * 100⟩]) := by
  unfold patchStep
  rcases hcm : checkMatch md5fn (probeAdler blockSize data st) table
      ((data.drop st.i).take (min blockSize (data.length - st.i))) with _ | mb
  · simp only [hcm]
    obtain ⟨hi, hev⟩ := patchEmit_shape blockSize data st (patchMiss data st
      (probeAdler blockSize data st))
    have him : (patchMiss data st (probeAdler blockSize data st)).i = st.i + 1 := rfl
    have hem : (patchMiss data st (probeAdler blockSize data st)).events = st.events := rfl
    refine ⟨by omega, ?_⟩
    rcases hev with hev | hev
    · exact Or.inl (by rw [hev, hem])
    · refine Or.inr ⟨(patchMiss data st (probeAdler blockSize data st)).matchCount,
        (patchMiss data st (probeAdler blockSize data st)).patchCount, ?_⟩
      rw [hev, hem, hi]
  · simp only [hcm]
    obtain ⟨hi, hev⟩ := patchEmit_shape blockSize data st (patchHit blockSize st mb)
    have him : (patchHit blockSize st mb).i = st.i + blockSize := rfl
    have hem : (patchHit blockSize st mb).events = st.events := rfl
    refine ⟨by omega, ?_⟩
    rcases hev with hev | hev
    · exact Or.inl (by rw [hev, hem])
    · refine Or.inr ⟨(patchHit blockSize st mb).matchCount,
        (patchHit blockSize st mb).patchCount, ?_⟩
      rw [hev, hem, hi]

lemma patchLoop_events (md5fn : List Nat → Digest) (blockSize : Nat) (data : List Nat)
    (table : List (Int × List ChecksumEntry)) (signal : Nat → Bool) :
    ∀ (fuel : Nat) (st : PatchState),
      (∀ e ∈ st.events, e.bytesProcessed ≤ st.i ∧
        e.percent = (e.bytesProcessed : ℚ) / ((data.length : ℕ) : ℚ) * 100) →
      List.Chain' (fun a b : PatchEvent => a.percent ≤ b.percent) st.events →
      (∀ doc evs, patchLoop md5fn blockSize data table signal fuel st = some (.ok doc, evs) →
          ∃ levs mc pc, evs = levs ++ [⟨"patch", data.length, data.length, mc, pc, 100⟩] ∧
            List.Chain' (fun a b : PatchEvent => a.percent ≤ b.percent) levs) ∧
      (∀ e evs, patchLoop md5fn blockSize data table signal fuel st = some (.error e, evs) →
          ∀ ev ∈ evs, ev.percent < 100) := by
  intro fuel
  induction fuel with
  | zero =>
    intro st _ _
    exact ⟨fun doc evs h => by simp [patchLoop] at h, fun e evs h => by simp [patchLoop] at h⟩
  | succ n ih =>
    intro st hinv hchain
    by_cases hi : st.i < data.length
    · by_cases hs : signal st.i
      · constructor
        · intro doc evs h
          simp only [patchLoop, hi, if_true, hs] at h
          exact absurd h (by simp)
        · intro e evs h
          simp only [patchLoop, hi, if_true, hs] at h
          simp only [Option.some.injEq, Prod.mk.injEq] at h
          obtain ⟨_, hevs⟩ := h
          subst hevs
          intro ev hev
          obtain ⟨h1, h2⟩ := hinv ev hev
          rw [h2]
          exact percent_lt_100 (by omega)
      · have hstep : patchLoop md5fn blockSize data table signal (n + 1) st =
            patchLoop md5fn blockSize data table signal n
              (patchStep md5fn blockSize data table st) := by
          simp only [patchLoop, hi, if_true, hs, Bool.false_eq_true, if_false]
        obtain ⟨hmono, hev⟩ := patchStep_shape md5fn blockSize data table st
        have hinv' : ∀ e ∈ (patchStep md5fn blockSize data table st).events,
            e.bytesProcessed ≤ (patchStep md5fn blockSize data table st).i ∧
            e.percent = (e.bytesProcessed : ℚ) / ((data.length : ℕ) : ℚ) * 100 := by
          rcases hev with hsame | ⟨mf, pc, happ⟩
          · rw [hsame]
            intro e he
            obtain ⟨h1, h2⟩ := hinv e he
            exact ⟨by omega, h2⟩
          · rw [happ]
            intro e he
            rcases List.mem_append.1 he with he | he
            · obtain ⟨h1, h2⟩ := hinv e he
              exact ⟨by omega, h2⟩
            · simp only [List.mem_singleton] at he
              subst he
              exact ⟨le_refl _, rfl⟩
        have hchain' : List.Chain' (fun a b : PatchEvent => a.percent ≤ b.percent)
            (patchStep md5fn blockSize data table st).events := by
          rcases hev with hsame | ⟨mf, pc, happ⟩
          · rw [hsame]; exact hchain
          · rw [happ, List.chain'_append]
            refine ⟨hchain, List.chain'_singleton _, ?_⟩
            intro x hx y hy
            simp only [List.head?_cons, Option.mem_def, Option.some.injEq] at hy
            subst hy
            have hxm : x ∈ st.events := List.mem_of_mem_getLast? hx
            obtain ⟨h1, h2⟩ := hinv x hxm
            rw [h2]
            simp only []
            refine ratio_mono (by positivity) ?_
            have : x.bytesProcessed ≤ (patchStep md5fn blockSize data table st).i := by omega
            exact_mod_cast this
        rw [hstep]
        exact ih (patchStep md5fn blockSize data table st) hinv' hchain'
    · constructor
      · intro doc evs h
        simp only [patchLoop, hi, if_false] at h
        simp only [Option.some.injEq, Prod.mk.injEq] at h
        obtain ⟨_, hevs⟩ := h
        subst hevs
        unfold patchFinish
        simp only []
        exact ⟨st.events, st.matchCount, _, rfl, hchain⟩
      · intro e evs h
        simp only [patchLoop, hi, if_false] at h
        simp only [Option.some.injEq, Prod.mk.injEq] at h
        obtain ⟨habs, _⟩ := h
        exact absurd habs (by simp)

lemma patch_doc_events_ok (md5fn : List Nat → Digest) (cw data : List Nat)
    (signal : Nat → Bool) (doc : List Nat) (evs : List PatchEvent)
    (h : createPatchDocument md5fn cw data signal = some (.ok doc, evs)) :
    evs ≠ [] ∧ evs.getLast?.map PatchEvent.percent = some 100 ∧
      List.Chain' (fun a b : PatchEvent => a.percent ≤ b.percent) evs.dropLast := by
  unfold createPatchDocument at h
  rcases hp : parseChecksumDocument cw with e | table
  · rw [hp] at h
    simp at h
  · rw [hp] at h
    simp only [] at h
    obtain ⟨hok, _⟩ := patchLoop_events md5fn (cw.getD 0 0) data table signal
      (data.length + 1) initPatchState (by intro e he; simp [initPatchState] at he)
      (by simp [initPatchState])
    obtain ⟨levs, mc, pc, heq, hch⟩ := hok doc evs h
    refine ⟨by simp [heq], ?_, ?_⟩
    · rw [heq, List.getLast?_concat, Option.map_some']
    · rw [heq, List.dropLast_concat]
      exact hch

lemma patch_doc_events_error (md5fn : List Nat → Digest) (cw data : List Nat)
    (signal : Nat → Bool) (e : String) (evs : List PatchEvent)
    (h : createPatchDocument md5fn cw data signal = some (.error e, evs)) :
    ∀ ev ∈ evs, ev.percent < 100 := by
  unfold createPatchDocument at h
  rcases hp : parseChecksumDocument cw with e' | table
  · rw [hp] at h
    simp only [Option.some.injEq, Prod.mk.injEq] at h
    obtain ⟨_, hevs⟩ := h
    subst hevs
    intro ev hev
    simp at hev
  · rw [hp] at h
    simp only [] at h
    obtain ⟨_, herr⟩ := patchLoop_events md5fn (cw.getD 0 0) data table signal
      (data.length + 1) initPatchState (by intro ev he; simp [initPatchState] at he)
      (by simp [initPatchState])
    exact herr e evs h

/-! ### Applicator progress events -/

lemma percent_le_100 {pa total : Nat} (h : pa ≤ total) :
    (pa : ℚ) / (total : ℚ) * 100 ≤ 100 := by
  rcases Nat.eq_zero_or_pos total with ht | ht
  · subst ht
    have : pa = 0 := by omega
    subst this
    norm_num
  · have htq : (0 : ℚ) < (total : ℚ) := by positivity
    rw [div_mul_eq_mul_div, div_le_iff₀ htq]
    have : (pa : ℚ) ≤ (total : ℚ) := by exact_mod_cast h
    nlinarith

lemma copyBlock_error_msg {data : List Nat} {blockSize j : Nat} {e : String}
    (h : copyBlock data blockSize j = .error e) : e = "RangeError" := by
  simp only [copyBlock] at h
  split at h
  · simp only [Except.error.injEq] at h
    exact h.symm
  · simp at h

lemma drainMatches_error_msg {data : List Nat} {blockSize anchor : Nat} :
    ∀ (ms : List Nat) (e : String), drainMatches data blockSize anchor ms = .error e →
      e = "RangeError" := by
  intro ms
  induction ms with
  | nil => intro e h; simp [drainMatches] at h
  | cons j rest ih =>
    intro e h
    unfold drainMatches at h
    split at h
    · simp at h
    · rcases hc : copyBlock data blockSize j with e' | bs
      · rw [hc] at h
        simp only [Except.error.injEq] at h
        subst h
        exact copyBlock_error_msg hc
      · rw [hc] at h
        rcases hd : drainMatches data blockSize anchor rest with e' | ⟨acc, rem, c⟩
        · rw [hd] at h
          simp only [Except.error.injEq] at h
          subst h
          exact ih e' hd
        · rw [hd] at h
          simp at h

lemma drainAll_error_msg {data : List Nat} {blockSize : Nat} :
    ∀ (ms : List Nat) (e : String), drainAll data blockSize ms = .error e →
      e = "RangeError" := by
  intro ms
  induction ms with
  | nil => intro e h; simp [drainAll] at h
  | cons j rest ih =>
    intro e h
    unfold drainAll at h
    rcases hc : copyBlock data blockSize j with e' | bs
    · rw [hc] at h
      simp only [Except.error.injEq] at h
      subst h
      exact copyBlock_error_msg hc
    · rw [hc] at h
      rcases hd : drainAll data blockSize rest with e' | ⟨acc, c⟩
      · rw [hd] at h
        simp only [Except.error.injEq] at h
        subst h
        exact ih e' hd
      · rw [hd] at h
        simp at h

lemma applyRecords_events (data pd : List Nat) (blockSize total : Nat) (signal : Nat → Bool) :
    ∀ (fuel : Nat) (st : ApplyState),
      fuel + st.recIndex = total →
      (∀ e ∈ st.events, 1 ≤ e.patchesApplied ∧ e.patchesApplied ≤ st.recIndex ∧
        e.percent = (e.patchesApplied : ℚ) / ((total : ℕ) : ℚ) * 100) →
      List.Chain' (fun a b : ApplyEvent => a.percent ≤ b.percent) st.events →
      (∀ st', applyRecords data pd blockSize total signal fuel st = (none, st') →
          (∀ e ∈ st'.events, 1 ≤ e.patchesApplied ∧ e.patchesApplied ≤ total ∧
            e.percent = (e.patchesApplied : ℚ) / ((total : ℕ) : ℚ) * 100) ∧
          List.Chain' (fun a b : ApplyEvent => a.percent ≤ b.percent) st'.events) ∧
      (∀ err st', applyRecords data pd blockSize total signal fuel st = (some err, st') →
          (∀ e ∈ st'.events, e.percent < 100) ∧
          List.Chain' (fun a b : ApplyEvent => a.percent ≤ b.percent) st'.events) := by
  intro fuel
  induction fuel with
  | zero =>
    intro st hfuel hinv hchain
    constructor
    · intro st' h
      simp only [applyRecords] at h
      cases h
      refine ⟨?_, hchain⟩
      intro e he
      obtain ⟨h1, h2, h3⟩ := hinv e he
      exact ⟨h1, by omega, h3⟩
    · intro err st' h
      simp only [applyRecords] at h
      exact absurd h (by simp)
  | succ n ih =>
    intro st hfuel hinv hchain
    by_cases hs : signal st.recIndex
    · constructor
      · intro st' h
        simp only [applyRecords, hs, if_true] at h
        exact absurd h (by simp)
      · intro err st' h
        simp only [applyRecords, hs, if_true] at h
        simp only [Prod.mk.injEq] at h
        obtain ⟨_, hst⟩ := h
        subst hst
        refine ⟨?_, hchain⟩
        intro e he
        obtain ⟨h1, h2, h3⟩ := hinv e he
        rw [h3]
        exact percent_lt_100 (by omega)
    · rcases hd : drainMatches data blockSize (readUint32LE pd st.patchOffset) st.mlist
          with e' | ⟨bs, rem, c⟩
      · constructor
        · intro st' h
          simp only [applyRecords, hs, Bool.false_eq_true, if_false, hd] at h
          exact absurd h (by simp)
        · intro err st' h
          simp only [applyRecords, hs, Bool.false_eq_true, if_false, hd] at h
          simp only [Prod.mk.injEq] at h
          obtain ⟨_, hst⟩ := h
          subst hst
          refine ⟨?_, hchain⟩
          intro e he
          obtain ⟨h1, h2, h3⟩ := hinv e he
          rw [h3]
          exact percent_lt_100 (by omega)
      · have hstep : applyRecords data pd blockSize total signal (n + 1) st =
            applyRecords data pd blockSize total signal n
              { patchOffset := st.patchOffset + 8 + readUint32LE pd (st.patchOffset + 4)
                recIndex := st.recIndex + 1
                mlist := rem
                blocksApplied := st.blocksApplied + c
                result := st.result ++ bs ++
                  ((pd.drop (st.patchOffset + 8)).take (readUint32LE pd (st.patchOffset + 4)))
                events := st.events ++
                  [⟨"apply", st.recIndex + 1, total, st.blocksApplied + c,
                    ((st.recIndex : ℚ) + 1) / ((total : ℕ) : ℚ) * 100⟩] } := by
          simp only [applyRecords, hs, Bool.false_eq_true, if_false, hd]
        rw [hstep]
        apply ih
        · show n + (st.recIndex + 1) = total
          omega
        · intro e he
          simp only [] at he
          rcases List.mem_append.1 he with he | he
          · obtain ⟨h1, h2, h3⟩ := hinv e he
            refine ⟨h1, ?_, h3⟩
            show e.patchesApplied ≤ st.recIndex + 1
            omega
          · simp only [List.mem_singleton] at he
            subst he
            refine ⟨by simp, ?_, ?_⟩
            · show st.recIndex + 1 ≤ st.recIndex + 1
              exact le_refl _
            · show ((st.recIndex : ℚ) + 1) / ((total : ℕ) : ℚ) * 100 =
                ((st.recIndex + 1 : ℕ) : ℚ) / ((total : ℕ) : ℚ) * 100
              push_cast
              ring_nf
        · simp only []
          rw [List.chain'_append]
          refine ⟨hchain, List.chain'_singleton _, ?_⟩
          intro x hx y hy
          simp only [List.head?_cons, Option.mem_def, Option.some.injEq] at hy
          subst hy
          have hxm : x ∈ st.events := List.mem_of_mem_getLast? hx
          obtain ⟨h1, h2, h3⟩ := hinv x hxm
          rw [h3]
          simp only []
          refine ratio_mono (by positivity) ?_
          have : (x.patchesApplied : ℚ) ≤ (st.recIndex : ℚ) := by exact_mod_cast h2
          push_cast
          linarith

lemma apply_events_chain (pd data : List Nat) (signal : Nat → Bool) :
    List.Chain' (fun a b : ApplyEvent => a.percent ≤ b.percent)
      (applyPatch pd data signal).2 := by
  unfold applyPatch
  split
  · exact List.chain'_nil
  · split
    · exact List.chain'_nil
    · split
      · exact List.chain'_nil
      · split
        · rename_i e st hrec
          exact (applyRecords_events data pd (patchBlockSize pd) (patchPatchCount pd) signal
            (patchPatchCount pd) _ (by simp) (by intro x hx; simp at hx) (by simp)).2 e st hrec
            |>.2
        · rename_i st hrec
          obtain ⟨hinv', hch⟩ := (applyRecords_events data pd (patchBlockSize pd)
            (patchPatchCount pd) signal (patchPatchCount pd) _ (by simp)
            (by intro x hx; simp at hx) (by simp)).1 st hrec
          split
          · exact hch
          · simp only []
            rw [List.chain'_append]
            refine ⟨hch, List.chain'_singleton _, ?_⟩
            intro x hx y hy
            simp only [List.head?_cons, Option.mem_def, Option.some.injEq] at hy
            subst hy
            obtain ⟨h1, h2, h3⟩ := hinv' x (List.mem_of_mem_getLast? hx)
            rw [h3]
            simp only []
            exact percent_le_100 h2

lemma apply_events_fast (pd data : List Nat) (signal : Nat → Bool)
    (hf : fastPathOk pd data = true)
    (hlen : 12 + 4 * patchMatchCount pd ≤ pd.length) :
    applyPatch pd data signal = (.ok data, []) := by
  unfold applyPatch
  rw [if_neg (by omega), if_neg (by omega), if_pos hf]

lemma apply_events_ok_last (pd data : List Nat) (signal : Nat → Bool) (out : List Nat)
    (evs : List ApplyEvent)
    (h : applyPatch pd data signal = (.ok out, evs))
    (hf : fastPathOk pd data = false) :
    evs.getLast?.map ApplyEvent.percent = some 100 := by
  unfold applyPatch at h
  split at h
  · simp at h
  · split at h
    · simp at h
    · split at h
      · rename_i hfast
        rw [hfast] at hf
        simp at hf
      · split at h
        · simp at h
        · rename_i st hrec
          split at h
          · simp at h
          · simp only [Prod.mk.injEq] at h
            obtain ⟨_, hevs⟩ := h
            subst hevs
            rw [List.getLast?_concat, Option.map_some']

lemma apply_events_cancel (pd data : List Nat) (signal : Nat → Bool)
    (evs : List ApplyEvent)
    (h : applyPatch pd data signal = (.error "Operation cancelled", evs)) :
    ∀ ev ∈ evs, ev.percent < 100 := by
  unfold applyPatch at h
  split at h
  · simp only [Prod.mk.injEq] at h
    obtain ⟨_, hevs⟩ := h
    subst hevs
    intro ev hev
    simp at hev
  · split at h
    · simp only [Prod.mk.injEq] at h
      obtain ⟨_, hevs⟩ := h
      subst hevs
      intro ev hev
      simp at hev
    · split at h
      · simp at h
      · split at h
        · rename_i e st hrec
          simp only [Prod.mk.injEq] at h
          obtain ⟨_, hevs⟩ := h
          subst hevs
          exact ((applyRecords_events data pd (patchBlockSize pd) (patchPatchCount pd) signal
            (patchPatchCount pd) _ (by simp) (by intro x hx; simp at hx) (by simp)).2
            e st hrec).1
        · rename_i st hrec
          split at h
          · rename_i e hda
            simp only [Prod.mk.injEq, Except.error.injEq] at h
            obtain ⟨hmsg, _⟩ := h
            have := drainAll_error_msg st.mlist e hda
            subst this
            exact absurd hmsg (by decide)
          · simp at h

lemma chk_events_empty (md5fn : List Nat → Digest) (blockSize : Nat) (signal : Nat → Bool) :
    (createChecksumDocument md5fn blockSize [] signal).2 = [] := by
  rcases hv : validateBlockSize blockSize ([] : List Nat).length with e | bs
  · simp only [createChecksumDocument, hv]
  · have hbs := validateBlockSize_pos hv
    rw [createChecksumDocument_pair md5fn blockSize [] bs signal hv]
    have h0 : ceilDiv ([] : List Nat).length bs = 0 := by
      unfold ceilDiv
      simp only [List.length_nil]
      exact Nat.div_eq_of_lt (by omega)
    rw [h0]
    rfl

/-- Claim C7 (amended, proved) — progress ordering.  Build-fingerprint:
events are non-decreasing in percent; with no cancellation the final event
reports 100 whenever the buffer is non-empty, and an empty buffer produces
no events at all; on any error no delivered event reports 100.
Build-patch: events other than the unconditional closing event are
non-decreasing in percent; a successful run always ends with a percent-100
event (the closing event may be preceded by an over-100 reading when the
final match overshoots the source length, which is why only the prefix is
claimed monotone); a cancelled or failed run delivers no percent-100 event.
Apply-patch: events are non-decreasing in percent; the fast path returns
the destination with no events at all (hence no final percent-100 event);
a successful general-path run ends with a percent-100 event; a cancelled
run delivers no percent-100 event. -/
theorem c7_progress_ordering :
    (∀ (md5fn : List Nat → Digest) (blockSize : Nat) (data : List Nat) (signal : Nat → Bool),
      List.Chain' (fun a b : ChkEvent => a.percent ≤ b.percent)
        (createChecksumDocument md5fn blockSize data signal).2) ∧
    (∀ (md5fn : List Nat → Digest) (blockSize : Nat) (data : List Nat) (bs : Nat),
      validateBlockSize blockSize data.length = .ok bs → data ≠ [] →
      ((createChecksumDocument md5fn blockSize data noSignal).2).getLast?.map ChkEvent.percent =
        some 100) ∧
    (∀ (md5fn : List Nat → Digest) (blockSize : Nat) (signal : Nat → Bool),
      (createChecksumDocument md5fn blockSize [] signal).2 = []) ∧
    (∀ (md5fn : List Nat → Digest) (blockSize : Nat) (data : List Nat) (signal : Nat → Bool)
      (e : String), (createChecksumDocument md5fn blockSize data signal).1 = .error e →
      ∀ ev ∈ (createChecksumDocument md5fn blockSize data signal).2, ev.percent < 100) ∧
    (∀ (md5fn : List Nat → Digest) (cw data : List Nat) (signal : Nat → Bool)
      (doc : List Nat) (evs : List PatchEvent),
      createPatchDocument md5fn cw data signal = some (.ok doc, evs) →
      evs ≠ [] ∧ evs.getLast?.map PatchEvent.percent = some 100 ∧
        List.Chain' (fun a b : PatchEvent => a.percent ≤ b.percent) evs.dropLast) ∧
    (∀ (md5fn : List Nat → Digest) (cw data : List Nat) (signal : Nat → Bool)
      (e : String) (evs : List PatchEvent),
      createPatchDocument md5fn cw data signal = some (.error e, evs) →
      ∀ ev ∈ evs, ev.percent < 100) ∧
    (∀ (pd data : List Nat) (signal : Nat → Bool),
      List.Chain' (fun a b : ApplyEvent => a.percent ≤ b.percent)
        (applyPatch pd data signal).2) ∧
    (∀ (pd data : List Nat) (signal : Nat → Bool), fastPathOk pd data = true →
      12 + 4 * patchMatchCount pd ≤ pd.length →
      applyPatch pd data signal = (.ok data, [])) ∧
    (∀ (pd data : List Nat) (signal : Nat → Bool) (out : List Nat) (evs : List ApplyEvent),
      applyPatch pd data signal = (.ok out, evs) → fastPathOk pd data = false →
      evs.getLast?.map ApplyEvent.percent = some 100) ∧
    (∀ (pd data : List Nat) (signal : Nat → Bool) (evs : List ApplyEvent),
      applyPatch pd data signal = (.error "Operation cancelled", evs) →
      ∀ ev ∈ evs, ev.percent < 100) :=
  ⟨chk_events_chain, chk_events_final, chk_events_empty, chk_events_cancel,
   patch_doc_events_ok, patch_doc_events_error, apply_events_chain, apply_events_fast,
   apply_events_ok_last, apply_events_cancel⟩

/-- Claim C7 (counterexample) — a patch taken by the fast path emits no
progress events at all, so the claimed final percent-100 event does not
exist for it. -/
theorem c7_fast_path_no_final_event :
    applyPatch pdC7 [65, 65, 65, 65] noSignal = (.ok [65, 65, 65, 65], []) ∧
      ((applyPatch pdC7 [65, 65, 65, 65] noSignal).2).getLast?.map ApplyEvent.percent ≠
        some 100 := by
  decide


/-! ### Self-patch identity (claim C3): arithmetic and layout lemmas -/

lemma ceilDiv_mul_ge {a b : Nat} (hb : 1 ≤ b) : a ≤ ceilDiv a b * b := by
  unfold ceilDiv
  have hq := Nat.div_add_mod (a + b - 1) b
  have hr := Nat.mod_lt (a + b - 1) (show 0 < b by omega)
  rw [Nat.mul_comm]
  omega

lemma mul_lt_of_lt_ceilDiv {a b k : Nat} (hb : 1 ≤ b) (hk : k < ceilDiv a b) : k * b < a := by
  unfold ceilDiv at hk
  have hq := Nat.div_add_mod (a + b - 1) b
  have hr := Nat.mod_lt (a + b - 1) (show 0 < b by omega)
  have hle : (k + 1) * b ≤ (a + b - 1) / b * b := Nat.mul_le_mul_right b (by omega)
  rw [Nat.add_mul, Nat.one_mul, Nat.mul_comm ((a + b - 1) / b) b] at hle
  omega

lemma ceilDiv_le_self {a b : Nat} (hb : 1 ≤ b) : ceilDiv a b ≤ a := by
  by_cases h : ceilDiv a b = 0
  · omega
  · have h1 : ceilDiv a b - 1 < ceilDiv a b := by omega
    have h2 := mul_lt_of_lt_ceilDiv hb h1
    have h3 : ceilDiv a b - 1 ≤ (ceilDiv a b - 1) * b := Nat.le_mul_of_pos_right _ (by omega)
    omega

lemma ceilDiv_sub_one {a b : Nat} (hb : 1 ≤ b) (ha : 1 ≤ a) :
    ceilDiv (a - b) b + 1 = ceilDiv a b := by
  unfold ceilDiv
  have h2 : a + b - 1 = (a - 1) + b := by omega
  rw [h2, Nat.add_div_right _ (by omega)]
  by_cases hab : b ≤ a
  · have h1 : a - b + b - 1 = a - 1 := by omega
    rw [h1]
  · have h1 : a - b + b - 1 = b - 1 := by omega
    rw [h1, Nat.div_eq_of_lt (by omega), Nat.div_eq_of_lt (by omega)]

lemma blockChunk_zero (bs : Nat) (d : List Nat) : blockChunk bs d 0 = d.take bs := by
  unfold blockChunk
  simp only [Nat.zero_mul, List.drop_zero, Nat.sub_zero]
  by_cases h : bs ≤ d.length
  · rw [Nat.min_eq_left h]
  · rw [Nat.min_eq_right (by omega), List.take_length, List.take_of_length_le (by omega)]

lemma blockChunk_succ (bs : Nat) (d : List Nat) (j : Nat) :
    blockChunk bs d (j + 1) = blockChunk bs (d.drop bs) j := by
  unfold blockChunk
  rw [List.drop_drop, List.length_drop]
  have h1 : bs + j * bs = (j + 1) * bs := by ring
  have h2 : d.length - bs - j * bs = d.length - (j + 1) * bs := by omega
  rw [h1, h2]

lemma blocksConcat (bs : Nat) (hbs : 1 ≤ bs) :
    ∀ (n : Nat) (d : List Nat), ceilDiv d.length bs = n →
      ((List.range n).map (blockChunk bs d)).flatten = d := by
  intro n
  induction n with
  | zero =>
    intro d hd
    have hl : d.length = 0 := by
      have := ceilDiv_mul_ge (a := d.length) hbs
      rw [hd] at this
      omega
    rw [List.length_eq_zero.1 hl]
    rfl
  | succ n ih =>
    intro d hd
    rw [List.range_succ_eq_map]
    simp only [List.map_cons, List.map_map, List.flatten_cons]
    rw [blockChunk_zero]
    have ha : 1 ≤ d.length := by
      by_contra h
      have h0 : d.length = 0 := by omega
      rw [h0] at hd
      unfold ceilDiv at hd
      rw [Nat.div_eq_of_lt (by omega)] at hd
      omega
    have hmap : (List.range n).map (blockChunk bs d ∘ Nat.succ) =
        (List.range n).map (blockChunk bs (d.drop bs)) := by
      apply List.map_congr_left
      intro j _
      exact blockChunk_succ bs d j
    have hsub : ceilDiv (d.drop bs).length bs = n := by
      rw [List.length_drop]
      have := ceilDiv_sub_one (a := d.length) (b := bs) hbs ha
      omega
    rw [hmap, ih (d.drop bs) hsub, List.take_append_drop]

lemma uint32LE_length (n : Nat) : (uint32LE n).length = 4 := rfl

lemma readWordLE_uint32LE (n : Nat) (l : List Nat) (hn : n < 4294967296) :
    readWordLE (uint32LE n ++ l) 0 = n := by
  have h : readWordLE (uint32LE n ++ l) 0 =
      n % 256 + 256 * (n / 256 % 256) + 65536 * (n / 65536 % 256) +
        16777216 * (n / 16777216 % 256) := rfl
  rw [h]
  omega

lemma readWordLE_append (l₁ l₂ : List Nat) (k : Nat) :
    readWordLE (l₁ ++ l₂) (l₁.length + k) = readWordLE l₂ k := by
  simp only [readWordLE]
  have e0 : (l₁ ++ l₂).getD (l₁.length + k) 0 = l₂.getD k 0 := by
    rw [List.getD_append_right _ _ 0 _ (by omega)]
    congr 1
    omega
  have e1 : (l₁ ++ l₂).getD (l₁.length + k + 1) 0 = l₂.getD (k + 1) 0 := by
    rw [List.getD_append_right _ _ 0 _ (by omega)]
    congr 1
    omega
  have e2 : (l₁ ++ l₂).getD (l₁.length + k + 2) 0 = l₂.getD (k + 2) 0 := by
    rw [List.getD_append_right _ _ 0 _ (by omega)]
    congr 1
    omega
  have e3 : (l₁ ++ l₂).getD (l₁.length + k + 3) 0 = l₂.getD (k + 3) 0 := by
    rw [List.getD_append_right _ _ 0 _ (by omega)]
    congr 1
    omega
  rw [e0, e1, e2, e3]

lemma readWordLE_uint32LE_shift (a k : Nat) (l : List Nat) :
    readWordLE (uint32LE a ++ l) (4 + k) = readWordLE l k := by
  have h := readWordLE_append (uint32LE a) l k
  rw [uint32LE_length] at h
  exact h

lemma readWord_flatten (ms : List Nat) : ∀ k, k < ms.length →
    (∀ m ∈ ms, m < 4294967296) →
    readWordLE ((ms.map uint32LE).flatten) (4 * k) = ms.getD k 0 := by
  induction ms with
  | nil =>
    intro k hk _
    simp only [List.length_nil] at hk
    omega
  | cons m rest ih =>
    intro k hk hbound
    simp only [List.map_cons, List.flatten_cons]
    cases k with
    | zero =>
      have h0 : (4 : Nat) * 0 = 0 := rfl
      rw [h0, readWordLE_uint32LE m _ (hbound m (by simp))]
      rfl
    | succ p =>
      have h4 : 4 * (p + 1) = 4 + 4 * p := by ring
      rw [h4, readWordLE_uint32LE_shift]
      have hr := ih p (by simpa using hk) (fun x hx => hbound x (by simp [hx]))
      rw [hr]
      rfl

lemma flatten_uint32LE_length : ∀ ms : List Nat,
    ((ms.map uint32LE).flatten).length = 4 * ms.length := by
  intro ms
  induction ms with
  | nil => rfl
  | cons m rest ih =>
    simp only [List.map_cons, List.flatten_cons, List.length_append, uint32LE_length, ih,
      List.length_cons]
    ring

lemma blockWords_flatten_length (md5fn : List Nat → Digest) (bs : Nat) (d : List Nat) :
    ∀ is : List Nat, ((is.map (blockWords md5fn bs d)).flatten).length = 5 * is.length := by
  intro is
  induction is with
  | nil => rfl
  | cons i rest ih =>
    simp only [List.map_cons, List.flatten_cons, List.length_append, ih, List.length_cons]
    have h : (blockWords md5fn bs d i).length = 5 := rfl
    rw [h]
    ring

lemma checksumLoop_noSignal_body (md5fn : List Nat → Digest) (bs : Nat) (d : List Nat)
    (numBlocks : Nat) : ∀ is : List Nat,
    (checksumLoop md5fn bs d numBlocks noSignal is).1 =
      .ok ((is.map (blockWords md5fn bs d)).flatten) := by
  intro is
  induction is with
  | nil => rfl
  | cons i rest ih =>
    rcases hrec : checksumLoop md5fn bs d numBlocks noSignal rest with ⟨res, evs⟩
    rw [hrec] at ih
    simp only at ih
    simp only [checksumLoop, noSignal, Bool.false_eq_true, if_false, hrec, ih]
    simp only [List.map_cons, List.flatten_cons]

lemma createChecksumDocument_self (md5fn : List Nat → Digest) (B : Nat) (d : List Nat)
    (bs : Nat) (hv : validateBlockSize B d.length = .ok bs) :
    (createChecksumDocument md5fn B d noSignal).1 =
      .ok ([bs, ceilDiv d.length bs] ++
        ((List.range (ceilDiv d.length bs)).map (blockWords md5fn bs d)).flatten) := by
  simp only [createChecksumDocument, hv]
  have hb := checksumLoop_noSignal_body md5fn bs d (ceilDiv d.length bs)
    (List.range (ceilDiv d.length bs))
  rcases hrec : checksumLoop md5fn bs d (ceilDiv d.length bs) noSignal
      (List.range (ceilDiv d.length bs)) with ⟨res, evs⟩
  rw [hrec] at hb
  simp only at hb
  simp only [hrec, hb]


/-! ### Self-patch identity (claim C3): hash-table and parse lemmas -/

lemma htLookup_insert (t : List (Int × List ChecksumEntry)) (e : ChecksumEntry) (h : Int) :
    htLookup (htInsert t e) h =
      if hash16 (e.weak : Int) = h then htLookup t h ++ [e] else htLookup t h := by
  simp only [htInsert, htLookup]
  by_cases hany : t.any (fun p => p.1 = hash16 (e.weak : Int))
  · rw [if_pos hany, List.find?_map]
    have hcomp : ((fun p : Int × List ChecksumEntry => decide (p.1 = h)) ∘
        (fun p => if p.1 = hash16 (e.weak : Int) then (p.1, p.2 ++ [e]) else p)) =
        fun p : Int × List ChecksumEntry => decide (p.1 = h) := by
      funext p
      simp only [Function.comp]
      by_cases hp : p.1 = hash16 (e.weak : Int)
      · simp [hp]
      · simp [hp]
    rw [hcomp]
    rcases hfind : t.find? (fun p => decide (p.1 = h)) with _ | p0
    · rw [hfind]
      by_cases hh : hash16 (e.weak : Int) = h
      · exfalso
        obtain ⟨x, hx, hxk⟩ := List.any_eq_true.1 hany
        have hsome : (t.find? (fun p => decide (p.1 = h))).isSome = true :=
          List.find?_isSome.2 ⟨x, hx, by simp only [decide_eq_true_eq] at hxk ⊢; omega⟩
        rw [hfind] at hsome
        simp at hsome
      · rw [if_neg hh]
        rfl
    · rw [hfind]
      have hp0 : p0.1 = h := by
        have := List.find?_some hfind
        simpa using this
      by_cases hh : hash16 (e.weak : Int) = h
      · rw [if_pos hh]
        simp only [Option.map_some', Option.getD_some]
        rw [if_pos (by omega)]
      · rw [if_neg hh]
        simp only [Option.map_some', Option.getD_some]
        rw [if_neg (by omega)]
  · rw [if_neg hany, List.find?_append]
    rcases hfind : t.find? (fun p => decide (p.1 = h)) with _ | p0
    · rw [hfind]
      simp only [Option.none_or]
      by_cases hh : hash16 (e.weak : Int) = h
      · rw [if_pos hh]
        have hsing : List.find? (fun p : Int × List ChecksumEntry => decide (p.1 = h))
            [(hash16 (e.weak : Int), [e])] = some (hash16 (e.weak : Int), [e]) :=
          List.find?_cons_of_pos _ (by simpa using hh)
        rw [hsing]
        rfl
      · rw [if_neg hh]
        have hsing : List.find? (fun p : Int × List ChecksumEntry => decide (p.1 = h))
            [(hash16 (e.weak : Int), [e])] = none := by
          rw [List.find?_cons_of_neg _ (by simpa using hh)]
          rfl
        rw [hsing]
    · rw [hfind]
      have hp0 : p0.1 = h := by
        have := List.find?_some hfind
        simpa using this
      have hh : ¬ hash16 (e.weak : Int) = h := by
        intro hcontra
        apply hany
        exact List.any_eq_true.2 ⟨p0, List.mem_of_find?_eq_some hfind, by
          simp only [decide_eq_true_eq]; omega⟩
      rw [if_neg hh]
      rfl

lemma htLookup_foldl (h : Int) :
    ∀ (entries : List ChecksumEntry) (t : List (Int × List ChecksumEntry)),
      htLookup (entries.foldl htInsert t) h =
        htLookup t h ++ entries.filter (fun e => hash16 (e.weak : Int) = h) := by
  intro entries
  induction entries with
  | nil =>
    intro t
    simp [List.foldl]
  | cons e rest ih =>
    intro t
    simp only [List.foldl_cons, List.filter_cons]
    rw [ih (htInsert t e), htLookup_insert]
    by_cases hh : hash16 (e.weak : Int) = h
    · rw [if_pos hh]
      have hd : decide (hash16 (e.weak : Int) = h) = true := by simpa using hh
      rw [hd]
      simp [List.append_assoc]
    · rw [if_neg hh]
      have hd : decide (hash16 (e.weak : Int) = h) = false := by simpa using hh
      rw [hd]
      simp

lemma findSome?_filter_of_none {α β : Type} (f : α → Option β) (p : α → Bool) :
    ∀ l : List α, (∀ x ∈ l, p x = false → f x = none) →
      (l.filter p).findSome? f = l.findSome? f := by
  intro l
  induction l with
  | nil => intro _; rfl
  | cons x rest ih =>
    intro hnone
    simp only [List.filter_cons]
    by_cases hp : p x
    · rw [if_pos (by simpa using hp)]
      simp only [List.findSome?_cons]
      rcases f x with _ | b
      · exact ih (fun y hy => hnone y (by simp [hy]))
      · rfl
    · rw [if_neg (by simpa using hp)]
      have hx : f x = none := hnone x (by simp) (by simpa using hp)
      simp only [List.findSome?_cons, hx]
      exact ih (fun y hy => hnone y (by simp [hy]))

lemma checkMatch_entries (md5fn : List Nat → Digest) (ai : AdlerInfo) (block : List Nat)
    (entries : List ChecksumEntry) :
    checkMatch md5fn ai (entries.foldl htInsert []) block =
      entries.findSome? (fun e =>
        if (e.weak : Int) = ai.checksum then
          if (md5fn block).words = e.strong then some e.blockIndex else none
        else none) := by
  unfold checkMatch
  rw [htLookup_foldl (hash16 ai.checksum) entries []]
  have hnil : htLookup [] (hash16 ai.checksum) = [] := rfl
  rw [hnil, List.nil_append]
  apply findSome?_filter_of_none
  intro e _ hfalse
  rw [if_neg]
  intro hweak
  rw [hweak] at hfalse
  simp at hfalse


lemma parseEntries_flatten (md5fn : List Nat → Digest) (bs : Nat) (d : List Nat) :
    ∀ (n j : Nat),
      parseEntries (j + 1) (((List.range' j n).map (blockWords md5fn bs d)).flatten) =
        (List.range' j n).map (selfEntry md5fn bs d) := by
  intro n
  induction n with
  | zero => intro j; rfl
  | succ n ih =>
    intro j
    rw [List.range'_succ]
    simp only [List.map_cons, List.flatten_cons]
    have hbw : blockWords md5fn bs d j ++
        ((List.range' (j + 1) n).map (blockWords md5fn bs d)).flatten =
        toUint32Int (blockAdler bs d j).checksum :: (md5fn (blockChunk bs d j)).h0 ::
          (md5fn (blockChunk bs d j)).h1 :: (md5fn (blockChunk bs d j)).h2 ::
          (md5fn (blockChunk bs d j)).h3 ::
          ((List.range' (j + 1) n).map (blockWords md5fn bs d)).flatten := rfl
    rw [hbw]
    simp only [parseEntries]
    rw [ih (j + 1)]
    simp only [selfEntry, Digest.words]

lemma parseChecksumDocument_self (md5fn : List Nat → Digest) (bs : Nat) (d : List Nat) :
    parseChecksumDocument ([bs, ceilDiv d.length bs] ++
        ((List.range (ceilDiv d.length bs)).map (blockWords md5fn bs d)).flatten) =
      .ok (((List.range (ceilDiv d.length bs)).map (selfEntry md5fn bs d)).foldl
        htInsert []) := by
  unfold parseChecksumDocument
  have hw : ([bs, ceilDiv d.length bs] ++
      ((List.range (ceilDiv d.length bs)).map (blockWords md5fn bs d)).flatten)[1]? =
      some (ceilDiv d.length bs) := by simp
  rw [hw]
  dsimp only []
  have hdrop : ([bs, ceilDiv d.length bs] ++
      ((List.range (ceilDiv d.length bs)).map (blockWords md5fn bs d)).flatten).drop 2 =
      ((List.range (ceilDiv d.length bs)).map (blockWords md5fn bs d)).flatten := rfl
  rw [hdrop]
  have hiter : parseIterations
      (((List.range (ceilDiv d.length bs)).map (blockWords md5fn bs d)).flatten) =
      ceilDiv d.length bs := by
    unfold parseIterations ceilDiv
    rw [blockWords_flatten_length, List.length_range]
    omega
  rw [hiter, if_pos rfl]
  have hpe := parseEntries_flatten md5fn bs d (ceilDiv d.length bs) 0
  simp only [Nat.zero_add] at hpe
  rw [List.range_eq_range', hpe]

lemma adler32_checksum_nat (offset stop : Nat) (data : List Nat) :
    ∃ c : Nat, c < 4294967296 ∧ (adler32 offset stop data).checksum = (c : Int) := by
  simp only [adler32]
  exact ⟨_, toUint32Int_lt _, rfl⟩

lemma blockAdler_weak_coe (bs : Nat) (d : List Nat) (i : Nat) :
    ((toUint32Int (blockAdler bs d i).checksum : Nat) : Int) = (blockAdler bs d i).checksum := by
  unfold blockAdler
  obtain ⟨c, hlt, hc⟩ := adler32_checksum_nat (i * bs) (i * bs + min bs (d.length - i * bs) - 1) d
  rw [hc, toUint32Int_coe hlt]

lemma findSome?_eq_some_of_mem {α β : Type} (f : α → Option β) (x : α) (b : β) :
    ∀ (l : List α), x ∈ l → f x = some b → ∃ y, l.findSome? f = some y := by
  intro l
  induction l with
  | nil => intro hx; cases hx
  | cons a rest ih =>
    intro hx hfx
    rcases hfa : f a with _ | c
    · simp only [List.findSome?_cons, hfa]
      rcases List.mem_cons.1 hx with h | h
      · subst h
        rw [hfa] at hfx
        cases hfx
      · exact ih h hfx
    · exact ⟨c, by simp [List.findSome?_cons, hfa]⟩

lemma selfEntry_weak (md5fn : List Nat → Digest) (bs : Nat) (d : List Nat) (i : Nat) :
    (selfEntry md5fn bs d i).weak = toUint32Int (blockAdler bs d i).checksum := rfl

lemma selfEntry_strong (md5fn : List Nat → Digest) (bs : Nat) (d : List Nat) (i : Nat) :
    (selfEntry md5fn bs d i).strong = (md5fn (blockChunk bs d i)).words := rfl

lemma selfEntry_blockIndex (md5fn : List Nat → Digest) (bs : Nat) (d : List Nat) (i : Nat) :
    (selfEntry md5fn bs d i).blockIndex = i + 1 := rfl

lemma findSome?_map_apply {α β γ : Type} (g : α → β) (f : β → Option γ) :
    ∀ l : List α, (l.map g).findSome? f = l.findSome? (fun x => f (g x)) := by
  intro l
  induction l with
  | nil => rfl
  | cons a rest ih =>
    simp only [List.map_cons, List.findSome?_cons]
    rcases f (g a) with _ | c
    · exact ih
    · rfl

lemma checkMatch_self_hit (md5fn : List Nat → Digest) (bs : Nat) (d : List Nat)
    (hInj : ∀ i < ceilDiv d.length bs, ∀ j < ceilDiv d.length bs,
      (md5fn (blockChunk bs d i)).words = (md5fn (blockChunk bs d j)).words →
        blockChunk bs d i = blockChunk bs d j)
    (k : Nat) (hk : k < ceilDiv d.length bs) :
    ∃ m, checkMatch md5fn (blockAdler bs d k)
        (((List.range (ceilDiv d.length bs)).map (selfEntry md5fn bs d)).foldl htInsert [])
        (blockChunk bs d k) = some m ∧
      1 ≤ m ∧ m ≤ ceilDiv d.length bs ∧ blockChunk bs d (m - 1) = blockChunk bs d k := by
  rw [checkMatch_entries, findSome?_map_apply]
  have hfk : (fun i : Nat => (fun e : ChecksumEntry =>
      if (e.weak : Int) = (blockAdler bs d k).checksum then
        if (md5fn (blockChunk bs d k)).words = e.strong then some e.blockIndex else none
      else none) (selfEntry md5fn bs d i)) k = some (k + 1) := by
    show (if (((selfEntry md5fn bs d k).weak : Nat) : Int) =
        (blockAdler bs d k).checksum then
      (if (md5fn (blockChunk bs d k)).words = (selfEntry md5fn bs d k).strong then
        some (selfEntry md5fn bs d k).blockIndex else none)
    else none) = some (k + 1)
    exact (if_pos (blockAdler_weak_coe bs d k)).trans (if_pos rfl)
  obtain ⟨y, hy⟩ := findSome?_eq_some_of_mem (fun i : Nat => (fun e : ChecksumEntry =>
      if (e.weak : Int) = (blockAdler bs d k).checksum then
        if (md5fn (blockChunk bs d k)).words = e.strong then some e.blockIndex else none
      else none) (selfEntry md5fn bs d i)) k (k + 1)
    (List.range (ceilDiv d.length bs)) (List.mem_range.2 hk) hfk
  obtain ⟨i, hiMem, hfi⟩ := List.exists_of_findSome?_eq_some hy
  have hiM : i < ceilDiv d.length bs := List.mem_range.1 hiMem
  simp only [] at hfi
  refine ⟨y, hy, ?_⟩
  split at hfi
  · split at hfi
    · rename_i hweak hstrong
      rw [selfEntry_strong] at hstrong
      rw [selfEntry_blockIndex] at hfi
      have hyi : i + 1 = y := Option.some.inj hfi
      have hchunk : blockChunk bs d i = blockChunk bs d k := hInj i hiM k hk hstrong.symm
      refine ⟨by omega, by omega, ?_⟩
      have hsub : y - 1 = i := by omega
      rw [hsub]
      exact hchunk
    · exact absurd hfi (by simp)
  · exact absurd hfi (by simp)


lemma patchEmit_fields (blockSize : Nat) (data : List Nat) (stOld stNew : PatchState) :
    (patchEmit blockSize data stOld stNew).i = stNew.i ∧
    (patchEmit blockSize data stOld stNew).adlerInfo = stNew.adlerInfo ∧
    (patchEmit blockSize data stOld stNew).matchedBlocks = stNew.matchedBlocks ∧
    (patchEmit blockSize data stOld stNew).patches = stNew.patches ∧
    (patchEmit blockSize data stOld stNew).matchCount = stNew.matchCount ∧
    (patchEmit blockSize data stOld stNew).patchCount = stNew.patchCount ∧
    (patchEmit blockSize data stOld stNew).currentPatch = stNew.currentPatch := by
  unfold patchEmit
  split
  · exact ⟨rfl, rfl, rfl, rfl, rfl, rfl, rfl⟩
  · exact ⟨rfl, rfl, rfl, rfl, rfl, rfl, rfl⟩

lemma selfLoop (md5fn : List Nat → Digest) (bs : Nat) (d : List Nat) (hbs : 1 ≤ bs)
    (hInj : ∀ i < ceilDiv d.length bs, ∀ j < ceilDiv d.length bs,
      (md5fn (blockChunk bs d i)).words = (md5fn (blockChunk bs d j)).words →
        blockChunk bs d i = blockChunk bs d j) :
    ∀ (cnt k : Nat) (st : PatchState) (fuel : Nat),
      k + cnt = ceilDiv d.length bs → cnt < fuel →
      st.i = k * bs → st.adlerInfo = none → st.currentPatch = [] → st.patches = [] →
      st.matchCount = k → st.patchCount = 0 → goodMatches bs d st.matchedBlocks k →
      ∃ ms evs, patchLoop md5fn bs d
          (((List.range (ceilDiv d.length bs)).map (selfEntry md5fn bs d)).foldl htInsert [])
          noSignal fuel st =
        some (.ok (uint32LE bs ++ uint32LE 0 ++ uint32LE (ceilDiv d.length bs) ++
          (ms.map uint32LE).flatten), evs) ∧
        goodMatches bs d ms (ceilDiv d.length bs) := by
  intro cnt
  induction cnt with
  | zero =>
    intro k st fuel hk hfuel hi hai hcp hpat hmc hpc hmb
    rcases fuel with _ | f
    · omega
    have hkM : k = ceilDiv d.length bs := by omega
    have hge : ¬ st.i < d.length := by
      rw [hi, hkM]
      have h1 : d.length ≤ ceilDiv d.length bs * bs := ceilDiv_mul_ge hbs
      omega
    have hloop : patchLoop md5fn bs d
        (((List.range (ceilDiv d.length bs)).map (selfEntry md5fn bs d)).foldl htInsert [])
        noSignal (f + 1) st =
        some (.ok ((patchFinish bs d st).1), (patchFinish bs d st).2) := by
      simp only [patchLoop]
      rw [if_neg hge]
    have hfin1 : (patchFinish bs d st).1 =
        uint32LE bs ++ uint32LE 0 ++ uint32LE (ceilDiv d.length bs) ++
          (st.matchedBlocks.map uint32LE).flatten := by
      simp only [patchFinish, hcp, hmc, hpc, hpat, hkM]
      simp
    refine ⟨st.matchedBlocks, (patchFinish bs d st).2, ?_, ?_⟩
    · rw [hloop, hfin1]
    · rw [← hkM]
      exact hmb
  | succ cnt ih =>
    intro k st fuel hk hfuel hi hai hcp hpat hmc hpc hmb
    rcases fuel with _ | f
    · omega
    have hklt : k < ceilDiv d.length bs := by omega
    have hlt : st.i < d.length := by
      rw [hi]
      exact mul_lt_of_lt_ceilDiv hbs hklt
    have hstep : patchLoop md5fn bs d
        (((List.range (ceilDiv d.length bs)).map (selfEntry md5fn bs d)).foldl htInsert [])
        noSignal (f + 1) st =
        patchLoop md5fn bs d
          (((List.range (ceilDiv d.length bs)).map (selfEntry md5fn bs d)).foldl htInsert [])
          noSignal f (patchStep md5fn bs d
            (((List.range (ceilDiv d.length bs)).map (selfEntry md5fn bs d)).foldl htInsert [])
            st) := by
      simp only [patchLoop, hlt, if_true, noSignal, Bool.false_eq_true, if_false]
    obtain ⟨m, hcm, hm1, hmM, hmchunk⟩ := checkMatch_self_hit md5fn bs d hInj k hklt
    have hps : patchStep md5fn bs d
        (((List.range (ceilDiv d.length bs)).map (selfEntry md5fn bs d)).foldl htInsert [])
        st = patchEmit bs d st (patchHit bs st m) := by
      simp only [patchStep]
      have hprobe : probeAdler bs d st = blockAdler bs d k := by
        simp only [probeAdler, hai]
        rw [hi]
        rfl
      rw [hprobe, hi]
      have hcm' : checkMatch md5fn (blockAdler bs d k)
          (((List.range (ceilDiv d.length bs)).map (selfEntry md5fn bs d)).foldl htInsert [])
          ((d.drop (k * bs)).take (min bs (d.length - k * bs))) = some m := hcm
      rw [hcm']
    obtain ⟨he_i, he_ai, he_mb, he_pat, he_mc, he_pc, he_cp⟩ :=
      patchEmit_fields bs d st (patchHit bs st m)
    have hh_i : (patchHit bs st m).i = st.i + bs := rfl
    have hh_ai : (patchHit bs st m).adlerInfo = none := rfl
    have hh_mb : (patchHit bs st m).matchedBlocks = st.matchedBlocks ++ [m] := rfl
    have hh_mc : (patchHit bs st m).matchCount = st.matchCount + 1 := rfl
    have hh_pat : (patchHit bs st m).patches = [] := by
      simp [patchHit, hcp, hpat]
    have hh_pc : (patchHit bs st m).patchCount = 0 := by
      simp [patchHit, hcp, hpc]
    have hh_cp : (patchHit bs st m).currentPatch = [] := by
      simp [patchHit, hcp]
    have hmb' : goodMatches bs d (st.matchedBlocks ++ [m]) (k + 1) := by
      obtain ⟨hlen', hprop⟩ := hmb
      refine ⟨by simp [hlen'], ?_⟩
      intro p hp
      by_cases hpk : p < k
      · have hgd : (st.matchedBlocks ++ [m]).getD p 0 = st.matchedBlocks.getD p 0 :=
          List.getD_append _ _ _ _ (by omega)
        rw [hgd]
        exact hprop p hpk
      · have hpk' : p = k := by omega
        subst hpk'
        have hgd : (st.matchedBlocks ++ [m]).getD p 0 = m := by
          rw [List.getD_append_right _ _ 0 _ (by omega)]
          have h0 : p - st.matchedBlocks.length = 0 := by omega
          rw [h0]
          rfl
        rw [hgd]
        exact ⟨hm1, hmM, hmchunk⟩
    obtain ⟨ms, evs, hrun, hgood⟩ := ih (k + 1) (patchEmit bs d st (patchHit bs st m)) f
      (by omega) (by omega)
      (by rw [he_i, hh_i, hi]; ring)
      (by rw [he_ai, hh_ai])
      (by rw [he_cp, hh_cp])
      (by rw [he_pat, hh_pat])
      (by rw [he_mc, hh_mc, hmc])
      (by rw [he_pc, hh_pc])
      (by rw [he_mb, hh_mb]; exact hmb')
    refine ⟨ms, evs, ?_, hgood⟩
    rw [hstep, hps]
    exact hrun


lemma validateBlockSize_lt {B n bs : Nat} (h : validateBlockSize B n = .ok bs)
    (hn : n < 4294967296) : bs < 4294967296 := by
  unfold validateBlockSize at h
  split at h
  · exact absurd h (by simp)
  · split at h
    · exact absurd h (by simp)
    · split at h
      · simp only [Except.ok.injEq] at h
        omega
      · simp only [Except.ok.injEq] at h
        rename_i h1 h2 _
        simp only [MAX_BLOCK_SIZE] at h2
        omega

lemma readWordLE_uint32LE_shift' (a k j : Nat) (l : List Nat) (hj : j = 4 + k) :
    readWordLE (uint32LE a ++ l) j = readWordLE l k := by
  rw [hj]
  exact readWordLE_uint32LE_shift a k l

lemma selfDoc_blockSize (bs M : Nat) (ms : List Nat) (hbs : bs < 4294967296) :
    patchBlockSize (uint32LE bs ++ uint32LE 0 ++ uint32LE M ++ (ms.map uint32LE).flatten) =
      bs := by
  unfold patchBlockSize
  simp only [List.append_assoc]
  exact readWordLE_uint32LE bs _ hbs

lemma selfDoc_patchCount (bs M : Nat) (ms : List Nat) :
    patchPatchCount (uint32LE bs ++ uint32LE 0 ++ uint32LE M ++ (ms.map uint32LE).flatten) =
      0 := by
  unfold patchPatchCount
  simp only [List.append_assoc]
  rw [readWordLE_uint32LE_shift' bs 0 4 _ (by norm_num)]
  exact readWordLE_uint32LE 0 _ (by norm_num)

lemma selfDoc_matchCount (bs M : Nat) (ms : List Nat) (hM : M < 4294967296) :
    patchMatchCount (uint32LE bs ++ uint32LE 0 ++ uint32LE M ++ (ms.map uint32LE).flatten) =
      M := by
  unfold patchMatchCount
  simp only [List.append_assoc]
  rw [readWordLE_uint32LE_shift' bs 4 8 _ (by norm_num),
    readWordLE_uint32LE_shift' 0 0 4 _ (by norm_num)]
  exact readWordLE_uint32LE M _ hM

lemma selfDoc_matches (bs M : Nat) (ms : List Nat) (hbs : bs < 4294967296)
    (hM : M < 4294967296) (hlen : ms.length = M) (hbound : ∀ m ∈ ms, m < 4294967296) :
    patchMatches (uint32LE bs ++ uint32LE 0 ++ uint32LE M ++ (ms.map uint32LE).flatten) =
      ms := by
  unfold patchMatches
  rw [selfDoc_matchCount bs M ms hM]
  have hread : ∀ k, k < M →
      readWordLE (uint32LE bs ++ uint32LE 0 ++ uint32LE M ++ (ms.map uint32LE).flatten)
        (12 + 4 * k) = ms.getD k 0 := by
    intro k hk
    have h1 : ((uint32LE bs ++ uint32LE 0) ++ uint32LE M).length = 12 := rfl
    have h2 := readWordLE_append ((uint32LE bs ++ uint32LE 0) ++ uint32LE M)
      ((ms.map uint32LE).flatten) (4 * k)
    rw [h1] at h2
    rw [h2]
    exact readWord_flatten ms k (by omega) hbound
  apply List.ext_getElem
  · simp [hlen]
  · intro p hp1 hp2
    simp only [List.getElem_map, List.getElem_range]
    rw [hread p (by simpa using hp1)]
    exact List.getD_eq_getElem ms 0 hp2

lemma selfDoc_length (bs M : Nat) (ms : List Nat) (hlen : ms.length = M) :
    (uint32LE bs ++ uint32LE 0 ++ uint32LE M ++ (ms.map uint32LE).flatten).length =
      12 + 4 * M := by
  simp only [List.length_append, uint32LE_length, flatten_uint32LE_length, hlen]


lemma goodMatches_bound {bs : Nat} {d : List Nat} {ms : List Nat}
    (hgood : goodMatches bs d ms (ceilDiv d.length bs)) (hM : ceilDiv d.length bs < 4294967296) :
    ∀ m ∈ ms, m < 4294967296 := by
  intro m hm
  obtain ⟨p, hp, hpm⟩ := List.mem_iff_getElem.1 hm
  have hgd : ms.getD p 0 = m := by
    rw [List.getD_eq_getElem ms 0 hp, hpm]
  rw [hgood.1] at hp
  obtain ⟨h1, h2, _⟩ := hgood.2 p hp
  omega

lemma selfDoc_apply (bs : Nat) (d : List Nat) (ms : List Nat) (hbs : 1 ≤ bs)
    (hbs32 : bs < 4294967296) (hM32 : ceilDiv d.length bs < 4294967296)
    (hgood : goodMatches bs d ms (ceilDiv d.length bs)) :
    (applyPatch (uint32LE bs ++ uint32LE 0 ++ uint32LE (ceilDiv d.length bs) ++
        (ms.map uint32LE).flatten) d noSignal).1 = .ok d := by
  obtain ⟨hlen, hprop⟩ := hgood
  have hbound : ∀ m ∈ ms, m < 4294967296 := goodMatches_bound ⟨hlen, hprop⟩ hM32
  have hrd_mc := selfDoc_matchCount bs (ceilDiv d.length bs) ms hM32
  have hrd_pc := selfDoc_patchCount bs (ceilDiv d.length bs) ms
  have hrd_bs := selfDoc_blockSize bs (ceilDiv d.length bs) ms hbs32
  have hrd_m := selfDoc_matches bs (ceilDiv d.length bs) ms hbs32 hM32 hlen hbound
  have hrd_len := selfDoc_length bs (ceilDiv d.length bs) ms hlen
  have hidx : ∀ j ∈ ms, 1 ≤ j ∧ (j - 1) * bs ≤ d.length := by
    intro j hj
    obtain ⟨p, hp, hpj⟩ := List.mem_iff_getElem.1 hj
    have hgd : ms.getD p 0 = j := by
      rw [List.getD_eq_getElem ms 0 hp, hpj]
    rw [hlen] at hp
    obtain ⟨h1, h2, _⟩ := hprop p hp
    refine ⟨by omega, ?_⟩
    by_cases hjM : j - 1 < ceilDiv d.length bs
    · have := mul_lt_of_lt_ceilDiv hbs hjM
      omega
    · omega
  have hmapeq : ms.map (blockBytes d bs) = (List.range (ceilDiv d.length bs)).map
      (blockChunk bs d) := by
    apply List.ext_getElem
    · simp [hlen]
    · intro p hp1 hp2
      simp only [List.getElem_map, List.getElem_range]
      have hpM : p < ceilDiv d.length bs := by simpa [hlen] using hp1
      obtain ⟨h1, h2, hchunk⟩ := hprop p hpM
      have hbb : blockBytes d bs (ms.getD p 0) = blockChunk bs d (ms.getD p 0 - 1) := rfl
      have hpl : p < ms.length := by simpa using hp1
      rw [← List.getD_eq_getElem ms 0 hpl, hbb, hchunk]
  simp only [applyPatch, hrd_mc, hrd_pc, hrd_bs, hrd_m]
  rw [if_neg (by omega), if_neg (by omega)]
  by_cases hfast : fastPathOk (uint32LE bs ++ uint32LE 0 ++
      uint32LE (ceilDiv d.length bs) ++ (ms.map uint32LE).flatten) d
  · rw [if_pos hfast]
  · rw [if_neg hfast]
    simp only [applyRecords]
    rw [drainAll_ok ms hidx]
    simp only [List.nil_append]
    rw [hmapeq, blocksConcat bs hbs (ceilDiv d.length bs) d rfl]


/-- Claim C3 (amended, proved) — self-patch: for a buffer fingerprinted
against itself (any accepted block size, buffer shorter than 2^32 so the
32-bit words in the documents are faithful, digest collision-free on the
buffer's blocks), the patch document has `patchCount = 0` and
`matchCount = ⌈|d|/B⌉`, and applying it to the buffer returns the buffer
bit-exact.  The claimed match sequence `[1, 2, …, M]` however only holds
when the buffer's blocks are pairwise distinct — the builder records the
first fingerprint whose weak sum and digest match, so duplicate blocks
repeat the earlier index (see the counterexample). -/
theorem c3_self_patch (md5fn : List Nat → Digest) (B : Nat) (d : List Nat) (bs : Nat)
    (hv : validateBlockSize B d.length = .ok bs)
    (hlen : d.length < 4294967296)
    (hInj : ∀ i < ceilDiv d.length bs, ∀ j < ceilDiv d.length bs,
      (md5fn (blockChunk bs d i)).words = (md5fn (blockChunk bs d j)).words →
        blockChunk bs d i = blockChunk bs d j) :
    ∃ cw pd evs,
      (createChecksumDocument md5fn B d noSignal).1 = .ok cw ∧
      createPatchDocument md5fn cw d noSignal = some (.ok pd, evs) ∧
      patchPatchCount pd = 0 ∧
      patchMatchCount pd = ceilDiv d.length bs ∧
      (applyPatch pd d noSignal).1 = .ok d ∧
      ((∀ i < ceilDiv d.length bs, ∀ j < ceilDiv d.length bs,
          blockChunk bs d i = blockChunk bs d j → i = j) →
        patchMatches pd = (List.range (ceilDiv d.length bs)).map (· + 1)) := by
  have hbs := validateBlockSize_pos hv
  have hbs32 := validateBlockSize_lt hv hlen
  have hM32 : ceilDiv d.length bs < 4294967296 := by
    have := ceilDiv_le_self (a := d.length) hbs
    omega
  obtain ⟨ms, evs, hrun, hgood⟩ := selfLoop md5fn bs d hbs hInj (ceilDiv d.length bs) 0
    initPatchState (d.length + 1)
    (by omega)
    (by have := ceilDiv_le_self (a := d.length) hbs; omega)
    ((Nat.zero_mul bs).symm) rfl rfl rfl rfl rfl
    ⟨rfl, fun p hp => absurd hp (Nat.not_lt_zero p)⟩
  have hpd : createPatchDocument md5fn
      ([bs, ceilDiv d.length bs] ++
        ((List.range (ceilDiv d.length bs)).map (blockWords md5fn bs d)).flatten) d noSignal =
      some (.ok (uint32LE bs ++ uint32LE 0 ++ uint32LE (ceilDiv d.length bs) ++
        (ms.map uint32LE).flatten), evs) := by
    simp only [createPatchDocument]
    rw [parseChecksumDocument_self md5fn bs d]
    have hg : ([bs, ceilDiv d.length bs] ++
        ((List.range (ceilDiv d.length bs)).map (blockWords md5fn bs d)).flatten).getD 0 0 =
        bs := rfl
    rw [hg]
    exact hrun
  refine ⟨[bs, ceilDiv d.length bs] ++
      ((List.range (ceilDiv d.length bs)).map (blockWords md5fn bs d)).flatten,
    uint32LE bs ++ uint32LE 0 ++ uint32LE (ceilDiv d.length bs) ++ (ms.map uint32LE).flatten,
    evs, createChecksumDocument_self md5fn B d bs hv, hpd,
    selfDoc_patchCount bs (ceilDiv d.length bs) ms,
    selfDoc_matchCount bs (ceilDiv d.length bs) ms hM32,
    selfDoc_apply bs d ms hbs hbs32 hM32 hgood, ?_⟩
  intro hdist
  rw [selfDoc_matches bs (ceilDiv d.length bs) ms hbs32 hM32 hgood.1
    (goodMatches_bound hgood hM32)]
  apply List.ext_getElem
  · simp [hgood.1]
  · intro p hp1 hp2
    simp only [List.getElem_map, List.getElem_range]
    have hpM : p < ceilDiv d.length bs := by
      have := hgood.1
      omega
    obtain ⟨h1, h2, hchunk⟩ := hgood.2 p hpM
    have hlt : ms.getD p 0 - 1 < ceilDiv d.length bs := by omega
    have heq := hdist (ms.getD p 0 - 1) hlt p hpM hchunk
    rw [← List.getD_eq_getElem ms 0 hp1]
    omega


/-- Claim C3 (counterexample) — on the two-byte buffer `[0, 0]` with block
size 1 the two blocks are identical, so the self patch records the match
sequence `[1, 1]`, not the claimed `[1, 2]`. -/
theorem c3_duplicate_blocks_matches :
    (createChecksumDocument testHash 1 [0, 0] noSignal).1 = .ok chkC3 ∧
      (createPatchDocument testHash chkC3 [0, 0] noSignal).map Prod.fst =
        some (.ok patchC3) ∧
      ceilDiv ([0, 0] : List Nat).length 1 = 2 ∧
      patchMatches patchC3 = [1, 1] ∧
      patchMatches patchC3 ≠ (List.range 2).map (· + 1) := by
  decide

theorem c3_self_patch_witness :
    ∃ cw pd evs,
      (createChecksumDocument testHash 1 [0, 1] noSignal).1 = .ok cw ∧
      createPatchDocument testHash cw [0, 1] noSignal = some (.ok pd, evs) ∧
      patchPatchCount pd = 0 ∧
      patchMatchCount pd = ceilDiv ([0, 1] : List Nat).length 1 ∧
      (applyPatch pd [0, 1] noSignal).1 = .ok [0, 1] ∧
      ((∀ i < ceilDiv ([0, 1] : List Nat).length 1,
          ∀ j < ceilDiv ([0, 1] : List Nat).length 1,
          blockChunk 1 [0, 1] i = blockChunk 1 [0, 1] j → i = j) →
        patchMatches pd = (List.range (ceilDiv ([0, 1] : List Nat).length 1)).map (· + 1)) :=
  c3_self_patch testHash 1 [0, 1] 1 (by decide) (by decide) (by decide)


/-- Claim C1 (code bug) — round-trip failure on a reordering source: for
destination `"AAAABBBB"` (block size 4) and source `"BBBBxAAAA"`, the patch
records both block matches and the literal `"x"`, but `applyPatch` appends
each record's literal *after* draining the matched blocks whose index does
not exceed the record's anchor, while `createPatchDocument` emitted the
pending literal *before* the match it interrupted (src/index.js:322-331
versus 448-470).  The reconstruction therefore yields `"BBBBAAAAx"`-ordered
bytes `≠` source even though the digest (`testHash`) is collision-free on
every block involved. -/
theorem c1_roundtrip_reorder_bug :
    validateBlockSize 4 dC1.length = .ok 4 ∧
      (createChecksumDocument testHash 4 dC1 noSignal).1 = .ok chkC1 ∧
      (createPatchDocument testHash chkC1 sC1 noSignal).map Prod.fst =
        some (.ok patchC1) ∧
      (applyPatch patchC1 dC1 noSignal).1 = .ok [66, 66, 66, 66, 65, 65, 65, 65, 120] ∧
      [66, 66, 66, 66, 65, 65, 65, 65, 120] ≠ sC1 ∧
      List.Pairwise (fun x y => x = y ∨ (testHash x).words ≠ (testHash y).words)
        involvedC1 := by
  decide


theorem c4_no_corrupt_patch_error_witness :
    ∃ out, (applyPatch pdC4 [1, 2, 3] noSignal).1 = .ok out :=
  c4_no_corrupt_patch_error pdC4 [1, 2, 3] (by decide) (by decide)

theorem c5_fast_path_guard_witness :
    (fastPathOk pdC7 [65, 65, 65, 65] = true ↔
      (patchPatchCount pdC7 = 0 ∧
        patchMatchCount pdC7 = ceilDiv ([65, 65, 65, 65] : List Nat).length
          (patchBlockSize pdC7) ∧
        patchMatches pdC7 = (List.range (patchMatchCount pdC7)).map (· + 1))) ∧
    (fastPathOk pdC7 [65, 65, 65, 65] = true →
      applyPatch pdC7 [65, 65, 65, 65] noSignal = (.ok [65, 65, 65, 65], [])) ∧
    (patchPatchCount pdC7 = 0 → fastPathOk pdC7 [65, 65, 65, 65] = false →
      (∀ j ∈ patchMatches pdC7, 1 ≤ j ∧
        (j - 1) * patchBlockSize pdC7 ≤ ([65, 65, 65, 65] : List Nat).length) →
      (applyPatch pdC7 [65, 65, 65, 65] noSignal).1 =
        .ok (((patchMatches pdC7).map
          (blockBytes [65, 65, 65, 65] (patchBlockSize pdC7))).flatten)) :=
  c5_fast_path_guard pdC7 [65, 65, 65, 65] (by decide) (by decide)

theorem c6_merge_dedup_witness :
    ∃ m, mergeChecksumDocuments [[4, 1, 9, 1, 2, 3, 4], [4, 1, 9, 1, 2, 3, 4]] = .ok m ∧
      m.getD 1 0 = (docTuples m).length ∧
      (docTuples m).length =
        (([[4, 1, 9, 1, 2, 3, 4], [4, 1, 9, 1, 2, 3, 4]] :
          List (List Nat)).flatMap docTuples).toFinset.card ∧
      (∀ t ∈ ([[4, 1, 9, 1, 2, 3, 4], [4, 1, 9, 1, 2, 3, 4]] :
          List (List Nat)).flatMap docTuples,
        (docTuples m).countP (fun y => y = t) = 1) ∧
      (docTuples m).Sublist (([[4, 1, 9, 1, 2, 3, 4], [4, 1, 9, 1, 2, 3, 4]] :
        List (List Nat)).flatMap docTuples) ∧
      (docTuples m).Pairwise (fun a b =>
        firstIdx (([[4, 1, 9, 1, 2, 3, 4], [4, 1, 9, 1, 2, 3, 4]] :
          List (List Nat)).flatMap docTuples) a <
        firstIdx (([[4, 1, 9, 1, 2, 3, 4], [4, 1, 9, 1, 2, 3, 4]] :
          List (List Nat)).flatMap docTuples) b) :=
  c6_merge_dedup [[4, 1, 9, 1, 2, 3, 4], [4, 1, 9, 1, 2, 3, 4]] (by decide) (by decide)

theorem c8_fingerprint_progress_shape_witness :
    (createChecksumDocument testHash 1 [0] noSignal).2 =
      ((List.range (ceilDiv ([0] : List Nat).length 1)).filter
          (fun i => decide (i % 100 = 0 ∨ i = ceilDiv ([0] : List Nat).length 1 - 1))).map
        (fun i => ⟨"checksum", i + 1, ceilDiv ([0] : List Nat).length 1,
          ((i : ℚ) + 1) / ((ceilDiv ([0] : List Nat).length 1 : ℕ) : ℚ) * 100⟩) :=
  c8_fingerprint_progress_shape testHash 1 [0] 1 (by decide)

theorem c10_merge_idempotent_witness :
    mergeChecksumDocuments [[4, 1, 9, 1, 2, 3, 4]] = .ok [4, 1, 9, 1, 2, 3, 4] :=
  c10_merge_idempotent [[4, 2, 9, 1, 2, 3, 4, 9, 1, 2, 3, 4]] [4, 1, 9, 1, 2, 3, 4]
    (by decide)

theorem c7_progress_ordering_witness :
    ((createChecksumDocument testHash 4 dC1 noSignal).2).getLast?.map ChkEvent.percent =
      some 100 :=
  c7_progress_ordering.2.1 testHash 4 dC1 4 (by decide) (by decide)

end BitSync
